import Mathlib

/-!
Verification development for the FortuneSheet AI bridge service.

The definitions below are a shallow embedding of the JavaScript source:

* `ai/api_server.js` — the API server holding the workbook snapshot
  (`workbookData`), the per-sheet pending-update queues (`pendingUpdates`)
  and the pending-sheet-creation queue (`pendingSheetCreations`), together
  with the coordinate codec (`indexToColumnChar`, `columnCharToIndex`,
  `parseCellReference`, `getCellReference`) and the HTTP endpoints.
* the browser client (`FortuneSheetAIClient`) — the polling reconciliation
  loop that fetches pending creations and updates and applies them to the
  live workbook document.

JavaScript numbers are modelled as `Int` (claims only involve integral
values), JS strings as `String`, absent/null values as `Option`, JS `Map`
and plain objects as association lists in insertion/iteration order.
-/

namespace FortuneAI

/-- Scalar cell content as it appears in JSON requests and snapshots.
Only the shapes the code inspects are distinguished: the server tests
`typeof x === "string"` and `startsWith("=")` for formulas. -/
inductive CellVal where
  | str : String → CellVal
  | num : Int → CellVal
  | boolv : Bool → CellVal
deriving DecidableEq

/-- JS truthiness of an optional string (null, undefined and "" are falsy). -/
def jsTruthyStr : Option String → Bool
  | none => false
  | some s => decide (s ≠ ("" : String))

/-- JS truthiness of an optional scalar value. -/
def jsTruthyVal : Option CellVal → Bool
  | none => false
  | some (.str s) => decide (s ≠ ("" : String))
  | some (.num n) => decide (n ≠ 0)
  | some (.boolv b) => b

/-- The result of `parseCellReference`: 0-based row and column indices. -/
structure Coords where
  row : Int
  col : Int
deriving DecidableEq

/-- One queued cell mutation, `api_server.js` (fields `row`, `col`, `value`,
`formula`, `cell` pushed into `pendingUpdates`). -/
structure PendingUpdate where
  row : Int
  col : Int
  value : Option CellVal
  formula : Option CellVal
  cell : String
deriving DecidableEq

/-- A cell of the sparse snapshot matrix: raw value `v`, formatted display
string `m`, formula text `f` (as in FortuneSheet cell objects). `none`
models both JS `undefined` and JSON `null`. -/
structure CellData where
  v : Option CellVal
  m : Option CellVal
  f : Option String
deriving DecidableEq

/-- One sheet of the held snapshot. Only the fields the bridge code reads
are modelled (`id`, `name`, `order`, `data`); the remaining FortuneSheet
fields (`row`, `column`, `config`, ...) are never inspected by it.
`data` is the dense row-major matrix, rows and cells possibly null. -/
structure Sheet where
  id : String
  name : String
  order : Int
  data : Option (List (Option (List (Option CellData))))
deriving DecidableEq

/-- The `{id, name, order}` summary returned by `GET /api/sheets`. -/
structure SheetSummary where
  id : String
  name : String
  order : Int
deriving DecidableEq

/-- An entry of `pendingSheetCreations`, `api_server.js`. -/
structure SheetCreationRequest where
  id : String
  name : String
  order : Int
  sheetData : Sheet
deriving DecidableEq

/-- The mutable state of the API server process: `workbookData`,
`pendingUpdates` (a `Map` from sheet id to update array, modelled as an
association list in insertion order) and `pendingSheetCreations`. -/
structure ServerState where
  workbookData : List Sheet
  pendingUpdates : List (String × List PendingUpdate)
  pendingSheetCreations : List SheetCreationRequest
deriving DecidableEq

/-- A sheet of the live workbook document on the client side. The cell
store abstracts the document owner; `cells` maps positions to the last
written value or formula text. -/
structure LiveSheet where
  id : String
  name : String
  cells : List ((Int × Int) × CellVal)
deriving DecidableEq

/-- The live workbook document (what `workbook.getAllSheets()` exposes). -/
abbrev LiveDoc := List LiveSheet

/-! ## Coordinate codec (`api_server.js` lines 159-198) -/

/-- Character codes produced by the `indexToColumnChar` while loop.  The
loop emits `65 + index % 26` and continues with `index / 26 - 1` while
that is nonnegative.  The first argument is fuel; since the loop variable
strictly decreases, fuel `n` always suffices for input `n` (see
`colCodes_eq`, which recovers the exact loop equation). -/
def colCodesAux : Nat → Nat → List Nat
  | 0, n => [65 + n % 26]
  | fuel + 1, n =>
    if n < 26 then [65 + n % 26]
    else colCodesAux fuel (n / 26 - 1) ++ [65 + n % 26]

/-- Character codes of the bijective base-26 column encoding. -/
def colCodes (n : Nat) : List Nat := colCodesAux n n

/-- `indexToColumnChar` (lines 159-166): 0-based column index to letters. -/
def indexToColumnChar (n : Nat) : String :=
  String.mk ((colCodes n).map Char.ofNat)

/-- `columnCharToIndex` (lines 171-177): for each character the loop does
`index = index * 26 + (charCode - 64)`, returning `index - 1` at the end. -/
def columnCharToIndex (s : String) : Int :=
  (s.data.foldl (fun acc c => acc * 26 + ((c.toNat : Int) - 64)) 0) - 1

/-- Test for `[A-Z]`. -/
def isUpperAlpha (c : Char) : Bool := decide (65 ≤ c.toNat ∧ c.toNat ≤ 90)

/-- Test for `[0-9]`. -/
def isDigitChar (c : Char) : Bool := decide (48 ≤ c.toNat ∧ c.toNat ≤ 57)

/-- Numeric value of a nonempty all-digit character list (what
`parseInt` returns on a `\d+` match). -/
def digitsToNat (l : List Char) : Nat :=
  l.foldl (fun acc c => 10 * acc + (c.toNat - 48)) 0

/-- `parseCellReference` (lines 183-191): matches `^([A-Z]+)(\d+)$`.
With a greedy `[A-Z]+`, the regex matches exactly when the maximal
uppercase-letter prefix is nonempty and the (nonempty) remainder is all
digits.  Row is `parseInt(digits) - 1`; no lower bound is checked. -/
def parseCellReference (cellRef : String) : Option Coords :=
  let letters := cellRef.data.takeWhile isUpperAlpha
  let rest := cellRef.data.dropWhile isUpperAlpha
  if letters ≠ [] ∧ rest ≠ [] ∧ rest.all isDigitChar then
    some { row := (digitsToNat rest : Int) - 1, col := columnCharToIndex (String.mk letters) }
  else none

/-- Semantics of the anchored regex `^([A-Z]+)(\d+)$`: the string splits
into a nonempty run of uppercase letters followed by a nonempty run of
digits. -/
def matchesRefPattern (s : String) : Prop :=
  ∃ L D : List Char, s.data = L ++ D ∧ L ≠ [] ∧ D ≠ [] ∧
    (∀ c ∈ L, isUpperAlpha c = true) ∧ (∀ c ∈ D, isDigitChar c = true)

/-- Digit character codes of `n` in decimal (fuel-indexed loop of the JS
number-to-string conversion; fuel `n` suffices, see `natDigits_eq`). -/
def natDigitsAux : Nat → Nat → List Nat
  | 0, n => [48 + n % 10]
  | fuel + 1, n =>
    if n < 10 then [48 + n % 10]
    else natDigitsAux fuel (n / 10) ++ [48 + n % 10]

/-- Decimal digit codes of a natural number. -/
def natDigits (n : Nat) : List Nat := natDigitsAux n n

/-- Decimal string of a natural number, as produced by JS template
literals such as `` `${sheetName}${sheetNum}` `` and `` `${row + 1}` ``. -/
def natToString (n : Nat) : String :=
  String.mk ((natDigits n).map Char.ofNat)

/-- `getCellReference` (lines 196-198): `indexToColumnChar(col) + (row+1)`.
The server only calls it with nonnegative `row` and `col`. -/
def getCellReference (row col : Int) : String :=
  indexToColumnChar col.toNat ++ natToString (row + 1).toNat

/-! ## JS `Map` on string keys, as an insertion-ordered association list -/

/-- `Map.get` (also models plain-object property lookup). -/
def mapGet {α : Type} (m : List (String × α)) (k : String) : Option α :=
  (m.find? (fun e => e.1 == k)).map (fun e => e.2)

/-- `Map.set`: replace the existing entry in place, else append. -/
def mapSet {α : Type} (m : List (String × α)) (k : String) (v : α) : List (String × α) :=
  if (m.find? (fun e => e.1 == k)).isSome then
    m.map (fun e => if e.1 == k then (k, v) else e)
  else m ++ [(k, v)]

/-- `Map.delete`: remove the entry with the given key. -/
def mapErase {α : Type} (m : List (String × α)) (k : String) : List (String × α) :=
  m.eraseP (fun e => e.1 == k)

/-- The enqueue pattern used by every update endpoint:
`if (!pendingUpdates.has(id)) pendingUpdates.set(id, []);`
followed by `pendingUpdates.get(id).push(...updates)`. -/
def pushUpdates (m : List (String × List PendingUpdate)) (k : String)
    (us : List PendingUpdate) : List (String × List PendingUpdate) :=
  let m1 := if (mapGet m k).isSome then m else mapSet m k []
  mapSet m1 k (((mapGet m1 k).getD []) ++ us)

/-! ## Table-format ingestion (`POST /api/sheet/:id/from-table`, lines 434-531) -/

/-- A JSON table `{ "1": {"A": v, ...}, ... }` in `Object.entries`
iteration order: rows keyed by (possibly quoted) row-number text, each
mapping to column-letter-keyed optional values. -/
abbrev Table := List (String × List (String × Option CellVal))

/-- Quote test for the `replace(/^['"]+|['"]+$/g, "")` row-key cleanup. -/
def isQuoteChar (c : Char) : Bool := decide (c.toNat = 39 ∨ c.toNat = 34)

/-- Strip a leading and a trailing run of quote characters from a key. -/
def stripQuotes (s : String) : String :=
  String.mk (((s.data.dropWhile isQuoteChar).reverse.dropWhile isQuoteChar).reverse)

/-- Value of the maximal leading digit run, `none` when there is none
(the `NaN` case of `parseInt`). -/
def leadingDigitsVal (l : List Char) : Option Int :=
  let ds := l.takeWhile isDigitChar
  if ds = [] then none else some ((digitsToNat ds : Nat) : Int)

/-- `parseInt(s, 10)`: skip whitespace, optional sign, then the maximal
digit prefix; `none` models `NaN`.  (Claims only involve values small
enough that JS float precision is exact.) -/
def jsParseInt (s : String) : Option Int :=
  let l := s.data.dropWhile (fun c => c.isWhitespace)
  match l with
  | c :: rest =>
    if c = '-' then (leadingDigitsVal rest).map (fun v => -v)
    else if c = '+' then leadingDigitsVal rest
    else leadingDigitsVal l
  | [] => none

/-- Row decoding of a table key: `parseInt(cleanRowNum, 10) - 1`, skipped
(`continue`) when `NaN` or negative. -/
def rowOfKey (k : String) : Option Int :=
  match jsParseInt (stripQuotes k) with
  | none => none
  | some v => if v - 1 < 0 then none else some (v - 1)

/-- Column decoding of a table key: `columnCharToIndex(colLetter)`,
skipped when negative (`columnCharToIndex` never yields `NaN`). -/
def colOfKey (k : String) : Option Int :=
  let c := columnCharToIndex k
  if c < 0 then none else some c

/-- The formula test of the formulas-table walk:
`typeof x === "string" && x.startsWith("=")`. -/
def isFormulaVal : CellVal → Bool
  | .str s =>
    match s.data with
    | c :: _ => c = '='
    | [] => false
  | _ => false

/-- The update pushed by the values-table walk (lines 469-475): always a
plain value, never a formula. -/
def mkValueUpdate (row col : Int) (v : CellVal) : PendingUpdate :=
  { row := row, col := col, value := some v, formula := none,
    cell := getCellReference row col }

/-- The update pushed by the formulas-table walk (lines 505-511): a
formula when the text starts with `=`, otherwise a literal value. -/
def mkTableUpdate (row col : Int) (v : CellVal) : PendingUpdate :=
  if isFormulaVal v then
    { row := row, col := col, value := none, formula := some v,
      cell := getCellReference row col }
  else
    { row := row, col := col, value := some v, formula := none,
      cell := getCellReference row col }

/-- Inner loop of the values-table walk: skip null entries and bad
columns; skip positions already in `processedCells`; otherwise push the
update and record the position. -/
def valuesStepCell (row : Int) (acc : List PendingUpdate × List (Int × Int))
    (e : String × Option CellVal) : List PendingUpdate × List (Int × Int) :=
  match e.2 with
  | none => acc
  | some v =>
    match colOfKey e.1 with
    | none => acc
    | some col =>
      if (row, col) ∈ acc.2 then acc
      else (acc.1 ++ [mkValueUpdate row col v], (row, col) :: acc.2)

/-- Outer loop of the values-table walk: skip rows with bad keys. -/
def valuesStepRow (acc : List PendingUpdate × List (Int × Int))
    (re : String × List (String × Option CellVal)) :
    List PendingUpdate × List (Int × Int) :=
  match rowOfKey re.1 with
  | none => acc
  | some row => re.2.foldl (valuesStepCell row) acc

/-- The values-table walk (lines 454-480), returning the update list and
the `processedCells` set. -/
def processValuesTable (t : Table) : List PendingUpdate × List (Int × Int) :=
  t.foldl valuesStepRow ([], [])

/-- Inner loop of the formulas-table walk: remove a previously queued
update for the same cell (`findIndex` + `splice`), then push. -/
def formulasStepCell (row : Int) (updates : List PendingUpdate)
    (e : String × Option CellVal) : List PendingUpdate :=
  match e.2 with
  | none => updates
  | some v =>
    match colOfKey e.1 with
    | none => updates
    | some col =>
      (updates.eraseP (fun u => u.row == row && u.col == col)) ++ [mkTableUpdate row col v]

/-- Outer loop of the formulas-table walk. -/
def formulasStepRow (updates : List PendingUpdate)
    (re : String × List (String × Option CellVal)) : List PendingUpdate :=
  match rowOfKey re.1 with
  | none => updates
  | some row => re.2.foldl (formulasStepCell row) updates

/-- The update batch built by one `from-table` call: values table first,
then the formulas table, which overrides same-cell entries. -/
def processFromTables (vt ft : Option Table) : List PendingUpdate :=
  let base := match vt with
    | none => ([], [])
    | some t => processValuesTable t
  match ft with
  | none => base.1
  | some t => t.foldl formulasStepRow base.1

/-- The valid (row, col, value) entries of a table in walk order: rows
with parseable nonnegative keys, cells with non-null values and
nonnegative columns.  Both table walks act exactly on these entries. -/
def validEntries (t : Table) : List (Int × Int × CellVal) :=
  t.flatMap (fun re =>
    match rowOfKey re.1 with
    | none => []
    | some row => re.2.filterMap (fun e =>
        match e.2 with
        | none => none
        | some v => (colOfKey e.1).map (fun col => (row, col, v))))

/-- Positions of the valid entries of a table. -/
def validPositions (t : Table) : List (Int × Int) :=
  (validEntries t).map (fun e => (e.1, e.2.1))

/-- The values-table walk expressed on one valid entry: dedup against
`processedCells`, else append (the nested loops act exactly like a fold
of this step over `validEntries`). -/
def coreValuesStep (acc : List PendingUpdate × List (Int × Int))
    (e : Int × Int × CellVal) : List PendingUpdate × List (Int × Int) :=
  if (e.1, e.2.1) ∈ acc.2 then acc
  else (acc.1 ++ [mkValueUpdate e.1 e.2.1 e.2.2], (e.1, e.2.1) :: acc.2)

/-- The formulas-table walk expressed on one valid entry: remove a queued
update at the same position, then append the table update. -/
def coreFormulasStep (us : List PendingUpdate) (e : Int × Int × CellVal) :
    List PendingUpdate :=
  (us.eraseP (fun u => u.row == e.1 && u.col == e.2.1)) ++ [mkTableUpdate e.1 e.2.1 e.2.2]

/-- At most one queued update per cell position. -/
def atMostOnePos (us : List PendingUpdate) : Prop :=
  ∀ r c : Int, (us.filter (fun u => u.row == r && u.col == c)).length ≤ 1

/-! ## Server endpoints (`api_server.js`) -/

/-- `GET /api/sheets` (lines 36-42): the `{id, name, order}` summaries. -/
def getSheets (st : ServerState) : List SheetSummary :=
  st.workbookData.map (fun s => { id := s.id, name := s.name, order := s.order })

/-- `POST /api/workbook/update` (lines 27-31): wholesale snapshot replace. -/
def postWorkbookUpdate (st : ServerState) (body : List Sheet) : Nat × ServerState :=
  (body.length, { st with workbookData := body })

/-- The while loop of the name-collision resolution (lines 62-65 and
70-73): try `base + k`, `base + (k+1)`, ... until the name is unused.
Fuel `existing.length + 1` always suffices (pigeonhole; the candidate
names are pairwise distinct). -/
def findFreshNameAux (base : String) (existing : List String) :
    Nat → Nat → String
  | 0, k => base ++ natToString k
  | fuel + 1, k =>
    if (base ++ natToString k) ∈ existing then
      findFreshNameAux base existing fuel (k + 1)
    else base ++ natToString k

/-- Sheet-name resolution of `POST /api/sheets` (lines 56-75): the code
branches on `if (!sheetName)`, so a missing name AND the falsy empty
string both synthesize `Sheet{N}` starting at `count + 1`; a provided
(truthy) name that collides gets the first free positive integer
suffix. -/
def resolveSheetName (name : Option String) (existing : List String) : String :=
  match name with
  | none => findFreshNameAux ("Sheet") existing (existing.length + 1) (existing.length + 1)
  | some nm =>
    if nm = ("" : String) then
      findFreshNameAux ("Sheet") existing (existing.length + 1) (existing.length + 1)
    else if nm ∈ existing then findFreshNameAux nm existing (existing.length + 1) 1
    else nm

/-- Index at which `Array.prototype.splice(i, 0, x)` inserts: negative
indices count from the end (clamped at 0), others are clamped at the
length. -/
def spliceIdx (len : Nat) (i : Int) : Nat :=
  if i < 0 then len - (-i).toNat else min i.toNat len

/-- `splice(i, 0, x)` as a pure insertion. -/
def spliceInsert {α : Type} (l : List α) (i : Int) (x : α) : List α :=
  l.take (spliceIdx l.length i) ++ [x] ++ l.drop (spliceIdx l.length i)

/-- Response of `POST /api/sheets`. -/
structure CreateSheetResp where
  id : String
  name : String
  order : Int
deriving DecidableEq

/-- `POST /api/sheets` (lines 49-154).  The generated id is
process-unique (`Date.now` + random); it is passed in as `fid`.  The new
sheet is inserted into `workbookData` immediately: when a requested
`order` is below the sheet count, existing sheets with `order ≥` the
request get `order + 1` and the sheet is spliced in at that index,
otherwise it is appended.  An empty queue is registered for the new id
and a creation request is appended for the poller. -/
def postSheets (st : ServerState) (name : Option String) (order : Option Int)
    (fid : String) : CreateSheetResp × ServerState :=
  let existingNames := st.workbookData.map (fun s => s.name)
  let sheetName := resolveSheetName name existingNames
  let sheetOrder : Int := match order with
    | some o => o
    | none => (st.workbookData.length : Int)
  let newSheet : Sheet :=
    { id := fid, name := sheetName, order := sheetOrder, data := some [] }
  let wd : List Sheet := match order with
    | some o =>
      if o < (st.workbookData.length : Int) then
        spliceInsert
          (st.workbookData.map (fun s =>
            if o ≤ s.order then { s with order := s.order + 1 } else s))
          o newSheet
      else st.workbookData ++ [newSheet]
    | none => st.workbookData ++ [newSheet]
  ({ id := fid, name := sheetName, order := sheetOrder },
   { workbookData := wd,
     pendingUpdates := mapSet st.pendingUpdates fid [],
     pendingSheetCreations := st.pendingSheetCreations ++
       [{ id := fid, name := sheetName, order := sheetOrder, sheetData := newSheet }] })

/-- Body of `POST /api/sheet/:id/cell`. -/
structure CellBody where
  cell : Option String
  value : Option CellVal
  formula : Option String
deriving DecidableEq

/-- Responses of `POST /api/sheet/:id/cell`. -/
inductive PostCellResp where
  | sheetNotFound
  | cellRequired
  | invalidRef
  | queued (cell : String) (row col : Int)
deriving DecidableEq

/-- The update object built from a point request (lines 366-372). -/
def mkPointUpdate (coords : Coords) (b : CellBody) (cellRef : String) : PendingUpdate :=
  { row := coords.row, col := coords.col,
    value := if jsTruthyStr b.formula then none else b.value,
    formula := if jsTruthyStr b.formula then b.formula.map CellVal.str else none,
    cell := cellRef }

/-- `POST /api/sheet/:id/cell` (lines 345-381): 404 when the sheet id is
unknown to the snapshot, 400 on a missing/falsy or unparseable reference,
otherwise one update is queued (creating the queue lazily). -/
def postCell (st : ServerState) (sid : String) (b : CellBody) :
    PostCellResp × ServerState :=
  match st.workbookData.find? (fun s => s.id == sid) with
  | none => (.sheetNotFound, st)
  | some _ =>
    match b.cell with
    | none => (.cellRequired, st)
    | some cellRef =>
      if cellRef = ("" : String) then (.cellRequired, st)
      else
        match parseCellReference cellRef with
        | none => (.invalidRef, st)
        | some coords =>
          (.queued cellRef coords.row coords.col,
           { st with pendingUpdates :=
               pushUpdates st.pendingUpdates sid [mkPointUpdate coords b cellRef] })

/-- Responses of `POST /api/sheet/:id/cells`. -/
inductive PostCellsResp where
  | sheetNotFound
  | notArray
  | queued (count : Nat)
deriving DecidableEq

/-- `POST /api/sheet/:id/cells` (lines 388-427): 404 when the sheet id is
unknown; entries with missing/falsy cell refs or unparseable refs are
dropped silently; the rest are queued in order. -/
def postCells (st : ServerState) (sid : String) (cells : Option (List CellBody)) :
    PostCellsResp × ServerState :=
  match st.workbookData.find? (fun s => s.id == sid) with
  | none => (.sheetNotFound, st)
  | some _ =>
    match cells with
    | none => (.notArray, st)
    | some cs =>
      let updates := cs.foldl (fun acc cb =>
        match cb.cell with
        | none => acc
        | some cellRef =>
          if cellRef = ("" : String) then acc
          else
            match parseCellReference cellRef with
            | none => acc
            | some coords => acc ++ [mkPointUpdate coords cb cellRef]) []
      (.queued updates.length,
       { st with pendingUpdates := pushUpdates st.pendingUpdates sid updates })

/-- Responses of `POST /api/sheet/:id/from-table`. -/
inductive FromTableResp where
  | sheetNotFound
  | tableRequired
  | queued (count : Nat)
deriving DecidableEq

/-- `POST /api/sheet/:id/from-table` (lines 434-531): 404 when the sheet
id is unknown; 400 when both tables are missing; otherwise the batch
built by `processFromTables` is appended to the (lazily created) queue. -/
def postFromTable (st : ServerState) (sid : String) (vt ft : Option Table) :
    FromTableResp × ServerState :=
  match st.workbookData.find? (fun s => s.id == sid) with
  | none => (.sheetNotFound, st)
  | some _ =>
    match vt, ft with
    | none, none => (.tableRequired, st)
    | _, _ =>
      let updates := processFromTables vt ft
      (.queued updates.length,
       { st with pendingUpdates := pushUpdates st.pendingUpdates sid updates })

/-- `GET /api/sheet/:id/pending-updates` (lines 537-544):
`pendingUpdates.get(id) || []`. -/
def getPendingUpdates (st : ServerState) (sid : String) : List PendingUpdate :=
  (mapGet st.pendingUpdates sid).getD []

/-- `DELETE /api/sheet/:id/pending-updates` (lines 550-556). -/
def deletePendingUpdates (st : ServerState) (sid : String) : ServerState :=
  { st with pendingUpdates := mapErase st.pendingUpdates sid }

/-- `GET /api/pending-sheet-creations` (lines 562-567): returns the queue
contents and count, leaving the state untouched. -/
def getPendingSheetCreations (st : ServerState) :
    (List SheetCreationRequest × Nat) × ServerState :=
  ((st.pendingSheetCreations, st.pendingSheetCreations.length), st)

/-- `DELETE /api/pending-sheet-creations` (lines 573-581): empties the
queue, returning how many entries were cleared. -/
def deletePendingSheetCreations (st : ServerState) : Nat × ServerState :=
  (st.pendingSheetCreations.length, { st with pendingSheetCreations := [] })

/-! ## Snapshot projection (`GET /api/sheet/:id/excel-tables`, lines 213-337) -/

/-- The bounds scan (lines 219-236): `maxRow`/`maxCol` over non-null
cells of non-null rows, both defaulting to 0. -/
def sheetBounds (d : List (Option (List (Option CellData)))) : Nat × Nat :=
  d.enum.foldl (fun acc re =>
    match re.2 with
    | none => acc
    | some row => row.enum.foldl (fun acc2 ce =>
        match ce.2 with
        | none => acc2
        | some _ => (max acc2.1 re.1, max acc2.2 ce.1)) acc) (0, 0)

/-- Cell lookup in the sparse matrix (the `cellMap` of the scan holds
exactly the non-null cells). -/
def getCellAt (d : List (Option (List (Option CellData)))) (r c : Nat) :
    Option CellData :=
  match d.get? r with
  | some (some row) => (row.get? c).bind (fun oc => oc)
  | _ => none

/-- Display value (line 260): `m` if present, else `v`, else null. -/
def displayValue (cell : CellData) : Option CellVal :=
  match cell.m with
  | some v => some v
  | none => cell.v

/-- Formulas-table entry (lines 261-267): `cell.f || null` then
`formula || value` — the formula text when truthy, else the value. -/
def formulaOrValue (cell : CellData) : Option CellVal :=
  match cell.f with
  | some s => if s = ("" : String) then displayValue cell else some (.str s)
  | none => displayValue cell

/-- One projected table: rows `1 .. maxRow+1` keyed by decimal text, each
with columns `A .. maxCol` keyed by letters, null where no cell exists. -/
def buildTable (d : List (Option (List (Option CellData)))) (maxRow maxCol : Nat)
    (pick : CellData → Option CellVal) :
    List (String × List (String × Option CellVal)) :=
  (List.range (maxRow + 1)).map (fun r =>
    (natToString (r + 1),
     (List.range (maxCol + 1)).map (fun c =>
       (indexToColumnChar c, (getCellAt d r c).bind pick))))

/-- Result of the excel-tables projection (the parts the claims concern). -/
structure Projection where
  maxRow : Nat
  maxCol : Nat
  valuesTable : List (String × List (String × Option CellVal))
  formulasTable : List (String × List (String × Option CellVal))
deriving DecidableEq

/-- `GET /api/sheet/:id/excel-tables` core: scan bounds, then materialize
the dense values and formulas tables. -/
def projectSheet (sheet : Sheet) : Projection :=
  let d := sheet.data.getD []
  let b := sheetBounds d
  { maxRow := b.1, maxCol := b.2,
    valuesTable := buildTable d b.1 b.2 displayValue,
    formulasTable := buildTable d b.1 b.2 formulaOrValue }

/-! ## Client reconciliation loop (`FortuneSheetAIClient`) -/

/-- `setCellValue(row, col, v)` on a live sheet: overwrite the cell. -/
def setCellValue (s : LiveSheet) (row col : Int) (v : CellVal) : LiveSheet :=
  { s with cells :=
      ((row, col), v) :: s.cells.eraseP (fun e => e.1.1 == row && e.1.2 == col) }

/-- Applying one queued update (client lines 265-291): a truthy formula
writes the formula text; else a non-null value writes the value; else
nothing happens. -/
def applyOneUpdate (s : LiveSheet) (u : PendingUpdate) : LiveSheet :=
  if jsTruthyVal u.formula then
    match u.formula with
    | some f => setCellValue s u.row u.col f
    | none => s
  else
    match u.value with
    | some v => setCellValue s u.row u.col v
    | none => s

/-- `applyUpdates(sheetId, updates)` (client lines 225-301): when the
sheet id is not in the live document, warn and return without touching
it; otherwise apply every update to that sheet in order. -/
def applyUpdatesClient (live : LiveDoc) (sheetId : String)
    (updates : List PendingUpdate) : LiveDoc :=
  match live.find? (fun s => s.id == sheetId) with
  | none => live
  | some _ =>
    live.map (fun s =>
      if s.id == sheetId then updates.foldl applyOneUpdate s else s)

/-- `checkAndApplyNewSheets` (client lines 167-220): fetch the pending
creations; when nonempty, add each sheet absent from the live document
(with its name), then clear the server-side creation queue. -/
def checkAndApplyNewSheets (server : ServerState) (live : LiveDoc) :
    ServerState × LiveDoc :=
  let reqs := server.pendingSheetCreations
  if reqs = [] then (server, live)
  else
    let live1 := reqs.foldl (fun lv r =>
      if (lv.find? (fun s => s.id == r.id)).isSome then lv
      else lv ++ [{ id := r.id, name := r.name, cells := [] }]) live
    ((deletePendingSheetCreations server).2, live1)

/-- One step of the per-sheet polling loop (client lines 137-152): fetch
the pending updates of one listed sheet; when nonempty, apply them (a
no-op if the sheet is missing from the live document) and then
unconditionally delete the server-side queue. -/
def pollSheetStep (acc : ServerState × LiveDoc) (info : SheetSummary) :
    ServerState × LiveDoc :=
  let us := getPendingUpdates acc.1 info.id
  if us = [] then acc
  else
    (deletePendingUpdates acc.1 info.id, applyUpdatesClient acc.2 info.id us)

/-- One reconciliation cycle of `startPollingForUpdates` (client lines
124-158): apply pending sheet creations, list the sheets the server
knows, then run the per-sheet step over that list. -/
def pollCycle (server : ServerState) (live : LiveDoc) : ServerState × LiveDoc :=
  let s1 := checkAndApplyNewSheets server live
  (getSheets s1.1).foldl pollSheetStep s1

end FortuneAI

namespace FortuneAI

/-! ## Theorems: coordinate codec -/

/-- Fuel irrelevance for the column-encoding loop: any fuel at least the
input yields the same digits. -/
theorem colCodesAux_fuel (n : Nat) : ∀ f g, n ≤ f → n ≤ g →
    colCodesAux f n = colCodesAux g n := by
  induction n using Nat.strong_induction_on with
  | _ n ih =>
    intro f g hf hg
    match f, g with
    | 0, 0 => rfl
    | 0, g + 1 =>
      have hn : n = 0 := Nat.le_zero.mp hf
      subst hn; rfl
    | f + 1, 0 =>
      have hn : n = 0 := Nat.le_zero.mp hg
      subst hn; rfl
    | f + 1, g + 1 =>
      by_cases h : n < 26
      · simp [colCodesAux, h]
      · have hm : n / 26 - 1 < n :=
          lt_of_le_of_lt (Nat.sub_le _ _) (Nat.div_lt_self (by omega) (by omega))
        simp only [colCodesAux, if_neg h]
        rw [ih _ hm f g (by omega) (by omega)]

/-- The exact loop equation of `indexToColumnChar`: emit the low digit,
continue with `n / 26 - 1` while a digit remains. -/
theorem colCodes_eq (n : Nat) : colCodes n =
    if n < 26 then [65 + n % 26] else colCodes (n / 26 - 1) ++ [65 + n % 26] := by
  by_cases h : n < 26
  · match n with
    | 0 => simp [colCodes, colCodesAux]
    | m + 1 => simp [colCodes, colCodesAux, h]
  · have h26 : 26 ≤ n := Nat.le_of_not_lt h
    match n, h26 with
    | m + 1, _ =>
      have hm : (m + 1) / 26 - 1 ≤ m := by
        have := Nat.div_lt_self (n := m + 1) (k := 26) (by omega) (by omega)
        omega
      simp only [colCodes, colCodesAux, if_neg h]
      rw [colCodesAux_fuel _ m ((m + 1) / 26 - 1) hm (Nat.le_refl _)]

/-- Every emitted column-letter code is an uppercase letter code. -/
theorem colCodes_bounds (n : Nat) : ∀ c ∈ colCodes n, 65 ≤ c ∧ c ≤ 90 := by
  induction n using Nat.strong_induction_on with
  | _ n ih =>
    intro c hc
    rw [colCodes_eq] at hc
    by_cases h : n < 26
    · rw [if_pos h] at hc
      have : c = 65 + n % 26 := List.mem_singleton.mp hc
      have := Nat.mod_lt n (y := 26) (by omega)
      omega
    · rw [if_neg h] at hc
      rcases List.mem_append.mp hc with h1 | h2
      · exact ih _ (lt_of_le_of_lt (Nat.sub_le _ _)
          (Nat.div_lt_self (by omega) (by omega))) c h1
      · have : c = 65 + n % 26 := List.mem_singleton.mp h2
        have := Nat.mod_lt n (y := 26) (by omega)
        omega

/-- Value of the decode fold over the digits of `n`, for any initial
accumulator: the bijective base-26 digits of `n` decode to `n + 1`. -/
theorem colCodes_foldl (n : Nat) : ∀ a : Int,
    (colCodes n).foldl (fun (acc : Int) (c : Nat) => acc * 26 + (((c : Int)) - 64)) a =
      a * 26 ^ (colCodes n).length + ((n : Int) + 1) := by
  induction n using Nat.strong_induction_on with
  | _ n ih =>
    intro a
    rw [colCodes_eq]
    by_cases h : n < 26
    · rw [if_pos h]
      have hmod : n % 26 = n := Nat.mod_eq_of_lt h
      simp only [List.foldl_cons, List.foldl_nil, List.length_cons,
        List.length_nil, hmod]
      push_cast
      ring
    · rw [if_neg h]
      have hm : n / 26 - 1 < n :=
        lt_of_le_of_lt (Nat.sub_le _ _) (Nat.div_lt_self (by omega) (by omega))
      rw [List.foldl_append, ih _ hm a]
      simp only [List.foldl_cons, List.foldl_nil, List.length_append,
        List.length_cons, List.length_nil]
      have e1 : ((n / 26 - 1 : Nat) : Int) + 1 = ((n / 26 : Nat) : Int) := by
        have h1 : 1 ≤ n / 26 := (Nat.le_div_iff_mul_le (by omega)).mpr (by omega)
        omega
      have e2 : ((n / 26 : Nat) : Int) * 26 + ((n % 26 : Nat) : Int) = (n : Int) := by
        have hdm : n / 26 * 26 + n % 26 = n := by omega
        exact_mod_cast hdm
      have e3 : ((65 + n % 26 : Nat) : Int) = 65 + ((n % 26 : Nat) : Int) := by
        push_cast
        ring
      rw [e3]
      linear_combination (26 : Int) * e1 + e2

/-- Unicode scalar values below the surrogate range survive the
`Char.ofNat`/`Char.toNat` round trip. -/
theorem char_toNat_ofNat_lt (c : Nat) (h : c < 55296) : (Char.ofNat c).toNat = c := by
  have hv : Nat.isValidChar c := Or.inl h
  simp [Char.ofNat, hv, Char.ofNatAux, Char.toNat]
  rfl

/-- Decoding the encoded letters of a column index yields `n + 1` before
the final `- 1` of `columnCharToIndex`. -/
theorem colCodes_map_foldl (n : Nat) :
    ((colCodes n).map Char.ofNat).foldl
      (fun (acc : Int) (c : Char) => acc * 26 + (((c.toNat : Int)) - 64)) 0 =
      (n : Int) + 1 := by
  rw [List.foldl_map]
  rw [List.foldl_ext _ (fun (acc : Int) (c : Nat) => acc * 26 + (((c : Int)) - 64)) 0
    (fun a c hc => by
      have hb := colCodes_bounds n c hc
      rw [char_toNat_ofNat_lt c (by omega)])]
  rw [colCodes_foldl n 0]
  simp

/-- Decoding inverts encoding for every column index. -/
theorem columnCharToIndex_indexToColumnChar (n : Nat) :
    columnCharToIndex (indexToColumnChar n) = (n : Int) := by
  show ((colCodes n).map Char.ofNat).foldl
      (fun (acc : Int) (c : Char) => acc * 26 + (((c.toNat : Int)) - 64)) 0 - 1 = (n : Int)
  rw [colCodes_map_foldl]
  ring

/-- C1: for every integer n ≥ 0, decodeColumn(encodeColumn(n)) == n for
the bijective base-26 letter codec (`indexToColumnChar` /
`columnCharToIndex`), and the concrete anchors hold: 0 ↦ "A", 25 ↦ "Z",
26 ↦ "AA", 701 ↦ "ZZ", 702 ↦ "AAA". -/
theorem claim_C1_column_codec_round_trip :
    (∀ n : Nat, columnCharToIndex (indexToColumnChar n) = (n : Int)) ∧
    indexToColumnChar 0 = ("A" : String) ∧
    indexToColumnChar 25 = ("Z" : String) ∧
    indexToColumnChar 26 = ("AA" : String) ∧
    indexToColumnChar 701 = ("ZZ" : String) ∧
    indexToColumnChar 702 = ("AAA" : String) :=
  ⟨columnCharToIndex_indexToColumnChar,
   by decide, by decide, by decide, by decide, by decide⟩

/-! ## Theorems: decimal digits (for generated names and row labels) -/

/-- Fuel irrelevance for the decimal-digit loop. -/
theorem natDigitsAux_fuel (n : Nat) : ∀ f g, n ≤ f → n ≤ g →
    natDigitsAux f n = natDigitsAux g n := by
  induction n using Nat.strong_induction_on with
  | _ n ih =>
    intro f g hf hg
    match f, g with
    | 0, 0 => rfl
    | 0, g + 1 =>
      have hn : n = 0 := Nat.le_zero.mp hf
      subst hn; rfl
    | f + 1, 0 =>
      have hn : n = 0 := Nat.le_zero.mp hg
      subst hn; rfl
    | f + 1, g + 1 =>
      by_cases h : n < 10
      · simp [natDigitsAux, h]
      · have hm : n / 10 < n := Nat.div_lt_self (by omega) (by omega)
        simp only [natDigitsAux, if_neg h]
        rw [ih _ hm f g (by omega) (by omega)]

/-- The exact loop equation of the decimal conversion. -/
theorem natDigits_eq (n : Nat) : natDigits n =
    if n < 10 then [48 + n % 10] else natDigits (n / 10) ++ [48 + n % 10] := by
  by_cases h : n < 10
  · match n with
    | 0 => simp [natDigits, natDigitsAux]
    | m + 1 => simp [natDigits, natDigitsAux, h]
  · have h10 : 10 ≤ n := Nat.le_of_not_lt h
    match n, h10 with
    | m + 1, _ =>
      have hm : (m + 1) / 10 ≤ m := by
        have := Nat.div_lt_self (n := m + 1) (k := 10) (by omega) (by omega)
        omega
      simp only [natDigits, natDigitsAux, if_neg h]
      rw [natDigitsAux_fuel _ m ((m + 1) / 10) hm (Nat.le_refl _)]

/-- Every decimal digit code is an ASCII digit code. -/
theorem natDigits_bounds (n : Nat) : ∀ c ∈ natDigits n, 48 ≤ c ∧ c ≤ 57 := by
  induction n using Nat.strong_induction_on with
  | _ n ih =>
    intro c hc
    rw [natDigits_eq] at hc
    by_cases h : n < 10
    · rw [if_pos h] at hc
      have : c = 48 + n % 10 := List.mem_singleton.mp hc
      have := Nat.mod_lt n (y := 10) (by omega)
      omega
    · rw [if_neg h] at hc
      rcases List.mem_append.mp hc with h1 | h2
      · exact ih _ (Nat.div_lt_self (by omega) (by omega)) c h1
      · have : c = 48 + n % 10 := List.mem_singleton.mp h2
        have := Nat.mod_lt n (y := 10) (by omega)
        omega

/-- The decimal digits of `n` evaluate back to `n` under the base-10
accumulator fold. -/
theorem natDigits_foldl (n : Nat) : ∀ a : Nat,
    (natDigits n).foldl (fun (acc : Nat) (c : Nat) => 10 * acc + (c - 48)) a =
      a * 10 ^ (natDigits n).length + n := by
  induction n using Nat.strong_induction_on with
  | _ n ih =>
    intro a
    rw [natDigits_eq]
    by_cases h : n < 10
    · rw [if_pos h]
      have hmod : n % 10 = n := Nat.mod_eq_of_lt h
      simp only [List.foldl_cons, List.foldl_nil, List.length_cons,
        List.length_nil, hmod]
      omega
    · rw [if_neg h]
      have hm : n / 10 < n := Nat.div_lt_self (by omega) (by omega)
      rw [List.foldl_append, ih _ hm a]
      simp only [List.foldl_cons, List.foldl_nil, List.length_append,
        List.length_cons, List.length_nil]
      have key : ∀ X : Nat, 10 * (a * X + n / 10) + (48 + n % 10 - 48) =
          a * (X * 10) + n := by
        intro X
        have h48 : 48 + n % 10 - 48 = n % 10 := by omega
        rw [h48]
        have hdm : n / 10 * 10 + n % 10 = n := by omega
        calc 10 * (a * X + n / 10) + n % 10
            = a * (X * 10) + (n / 10 * 10 + n % 10) := by ring
          _ = a * (X * 10) + n := by rw [hdm]
      rw [pow_succ]
      exact key (10 ^ (natDigits (n / 10)).length)

/-- Lists of valid character codes are injectively mapped by `Char.ofNat`. -/
theorem map_charOfNat_inj : ∀ (l1 l2 : List Nat),
    (∀ c ∈ l1, c < 55296) → (∀ c ∈ l2, c < 55296) →
    l1.map Char.ofNat = l2.map Char.ofNat → l1 = l2 := by
  intro l1
  induction l1 with
  | nil =>
    intro l2 _ _ h
    cases l2 with
    | nil => rfl
    | cons b t => simp at h
  | cons a t ih =>
    intro l2 h1 h2 h
    cases l2 with
    | nil => simp at h
    | cons b t2 =>
      simp only [List.map_cons, List.cons.injEq] at h
      have ha : a < 55296 := h1 a (List.mem_cons_self a t)
      have hb : b < 55296 := h2 b (List.mem_cons_self b t2)
      have hab : a = b := by
        have := congrArg Char.toNat h.1
        rwa [char_toNat_ofNat_lt a ha, char_toNat_ofNat_lt b hb] at this
      have ht : t = t2 := ih t2 (fun c hc => h1 c (List.mem_cons_of_mem _ hc))
        (fun c hc => h2 c (List.mem_cons_of_mem _ hc)) h.2
      rw [hab, ht]

/-- The JS decimal rendering of natural numbers is injective. -/
theorem natToString_injective : Function.Injective natToString := by
  intro m n h
  have hdata : (natDigits m).map Char.ofNat = (natDigits n).map Char.ofNat :=
    congrArg String.data h
  have hdig : natDigits m = natDigits n :=
    map_charOfNat_inj _ _
      (fun c hc => by have := natDigits_bounds m c hc; omega)
      (fun c hc => by have := natDigits_bounds n c hc; omega)
      hdata
  have hm := natDigits_foldl m 0
  have hn := natDigits_foldl n 0
  rw [hdig] at hm
  simp only [Nat.zero_mul, Nat.zero_add] at hm hn
  omega

/-! ## Theorems: cell-reference parsing -/

/-- takeWhile over an append whose first part wholly satisfies the
predicate. -/
theorem takeWhile_append_of_all {α : Type} {p : α → Bool} :
    ∀ (L D : List α), (∀ c ∈ L, p c = true) →
    (L ++ D).takeWhile p = L ++ D.takeWhile p := by
  intro L
  induction L with
  | nil => intro D _; rfl
  | cons a t ih =>
    intro D h
    have ha : p a = true := h a (List.mem_cons_self a t)
    simp only [List.cons_append, List.takeWhile_cons, ha, if_true]
    rw [ih D (fun c hc => h c (List.mem_cons_of_mem _ hc))]

/-- dropWhile over an append whose first part wholly satisfies the
predicate. -/
theorem dropWhile_append_of_all {α : Type} {p : α → Bool} :
    ∀ (L D : List α), (∀ c ∈ L, p c = true) →
    (L ++ D).dropWhile p = D.dropWhile p := by
  intro L
  induction L with
  | nil => intro D _; rfl
  | cons a t ih =>
    intro D h
    have ha : p a = true := h a (List.mem_cons_self a t)
    simp only [List.cons_append, List.dropWhile_cons, ha, if_true]
    exact ih D (fun c hc => h c (List.mem_cons_of_mem _ hc))

/-- A digit character is not an uppercase letter. -/
theorem isDigit_not_upper {c : Char} (h : isDigitChar c = true) :
    isUpperAlpha c = false := by
  simp only [isDigitChar, decide_eq_true_eq] at h
  simp only [isUpperAlpha, decide_eq_false_iff_not]
  omega

/-- `parseCellReference` succeeds exactly on strings matching the
letters-then-digits pattern. -/
theorem parseCellReference_isSome_iff (s : String) :
    (parseCellReference s).isSome = true ↔ matchesRefPattern s := by
  constructor
  · intro h
    unfold parseCellReference at h
    by_cases hcond : s.data.takeWhile isUpperAlpha ≠ [] ∧
        s.data.dropWhile isUpperAlpha ≠ [] ∧
        (s.data.dropWhile isUpperAlpha).all isDigitChar
    · refine ⟨s.data.takeWhile isUpperAlpha, s.data.dropWhile isUpperAlpha,
        (List.takeWhile_append_dropWhile _ _).symm, hcond.1, hcond.2.1,
        fun c hc => List.mem_takeWhile_imp hc,
        fun c hc => List.all_eq_true.mp hcond.2.2 c hc⟩
    · rw [if_neg hcond] at h
      simp at h
  · rintro ⟨L, D, hs, hL, hD, hLall, hDall⟩
    have hdrop : D.dropWhile isUpperAlpha = D := by
      match D, hD with
      | d :: t, _ =>
        have : isUpperAlpha d = false := isDigit_not_upper (hDall d (List.mem_cons_self d t))
        simp [List.dropWhile_cons, this]
    have htake : D.takeWhile isUpperAlpha = [] := by
      match D, hD with
      | d :: t, _ =>
        have : isUpperAlpha d = false := isDigit_not_upper (hDall d (List.mem_cons_self d t))
        simp [List.takeWhile_cons, this]
    have h1 : s.data.takeWhile isUpperAlpha = L := by
      rw [hs, takeWhile_append_of_all L D hLall, htake, List.append_nil]
    have h2 : s.data.dropWhile isUpperAlpha = D := by
      rw [hs, dropWhile_append_of_all L D hLall, hdrop]
    unfold parseCellReference
    rw [if_pos ⟨by rw [h1]; exact hL, by rw [h2]; exact hD,
      by rw [h2]; exact List.all_eq_true.mpr hDall⟩]
    rfl

/-- A string containing a lowercase letter is never parsed: the letter
can sit neither in the uppercase prefix nor in the digit suffix. -/
theorem parseCellReference_lower_none (s : String) (c : Char) (hc : c ∈ s.data)
    (h1 : 97 ≤ c.toNat) (h2 : c.toNat ≤ 122) : parseCellReference s = none := by
  have hcu : isUpperAlpha c = false := by
    simp only [isUpperAlpha, decide_eq_false_iff_not]
    omega
  have hcd : isDigitChar c = false := by
    simp only [isDigitChar, decide_eq_false_iff_not]
    omega
  have hsplit := List.takeWhile_append_dropWhile isUpperAlpha s.data
  unfold parseCellReference
  rw [if_neg]
  rintro ⟨-, -, hall⟩
  rcases List.mem_append.mp (by rw [hsplit]; exact hc :
      c ∈ s.data.takeWhile isUpperAlpha ++ s.data.dropWhile isUpperAlpha) with hmem | hmem
  · have := List.mem_takeWhile_imp hmem
    rw [hcu] at this
    exact Bool.false_ne_true this
  · have := List.all_eq_true.mp hall c hmem
    rw [hcd] at this
    exact Bool.false_ne_true this

/-- C3 counterexample: the code never normalizes case, so the
lower-case reference "b2" fails to parse instead of decoding to
(row 1, col 1) as the claim states. -/
theorem claim_C3_counterexample :
    parseCellReference ("b2") = none ∧
    parseCellReference ("b2") ≠ some { row := 1, col := 1 } := by
  constructor
  · decide
  · decide

/-- C3 (amended): `parseCellReference` is case-sensitive.  Any reference
containing a lowercase letter fails with an invalid-reference result,
while uppercase references decode as usual ("B2" ↦ (1,1), "A1" ↦ (0,0),
"AA1" ↦ (0,26)). -/
theorem claim_C3_theorem :
    (∀ (s : String) (c : Char), c ∈ s.data → 97 ≤ c.toNat → c.toNat ≤ 122 →
      parseCellReference s = none) ∧
    parseCellReference ("B2") = some { row := 1, col := 1 } ∧
    parseCellReference ("A1") = some { row := 0, col := 0 } ∧
    parseCellReference ("AA1") = some { row := 0, col := 26 } :=
  ⟨parseCellReference_lower_none, by decide, by decide, by decide⟩

/-- C3 witness: the amended theorem applied to the concrete lowercase
reference "b2" and its letter b. -/
theorem claim_C3_witness : parseCellReference ("b2") = none :=
  claim_C3_theorem.1 ("b2") 'b' (by decide) (by decide) (by decide)

/-- C4 counterexample: the reference "A0" (digits parse to 0 < 1) does
NOT fail — `parseCellReference` returns row −1, and the point-update
endpoint queues an update with a negative row index. -/
theorem claim_C4_counterexample :
    parseCellReference ("A0") = some { row := -1, col := 0 } ∧
    (postCell
        { workbookData := [{ id := "s1", name := "Sheet1", order := 0, data := none }],
          pendingUpdates := [], pendingSheetCreations := [] }
        ("s1")
        { cell := some ("A0"), value := some (.str ("x")), formula := none }).2.pendingUpdates =
      [(("s1"),
        [{ row := -1, col := 0, value := some (.str ("x")), formula := none, cell := ("A0") }])] := by
  constructor
  · decide
  · decide

/-- C4 (amended): `parseCellReference` fails exactly when the string does
not match the letters-then-digits pattern; a digit part parsing to a
number < 1 is NOT rejected — "A0" decodes to row −1 and `enqueuePoint`
queues that update with a negative row index. -/
theorem claim_C4_theorem :
    (∀ s : String, (parseCellReference s).isSome = true ↔ matchesRefPattern s) ∧
    parseCellReference ("A0") = some { row := -1, col := 0 } ∧
    (postCell
        { workbookData := [{ id := "s1", name := "Sheet1", order := 0, data := none }],
          pendingUpdates := [], pendingSheetCreations := [] }
        ("s1")
        { cell := some ("A0"), value := some (.str ("x")), formula := none }).1 =
      .queued ("A0") (-1) 0 :=
  ⟨parseCellReference_isSome_iff, by decide, by decide⟩

/-- C4 witness: the pattern characterization applied at the concrete
reference "AB12". -/
theorem claim_C4_witness : (parseCellReference ("AB12")).isSome = true :=
  (claim_C4_theorem.1 ("AB12")).mpr
    ⟨['A', 'B'], ['1', '2'], by decide, by decide, by decide, by decide, by decide⟩

/-! ## Theorems: sheet-name collision resolution -/

/-- Correctness of the collision loop: with enough fuel it returns the
candidate with the first free suffix at or after the start index. -/
theorem findFreshNameAux_spec (base : String) (existing : List String) :
    ∀ (fuel k : Nat), (∃ j, j < fuel ∧ (base ++ natToString (k + j)) ∉ existing) →
    ∃ j, j < fuel ∧ (base ++ natToString (k + j)) ∉ existing ∧
      (∀ i, i < j → (base ++ natToString (k + i)) ∈ existing) ∧
      findFreshNameAux base existing fuel k = base ++ natToString (k + j) := by
  intro fuel
  induction fuel with
  | zero =>
    rintro k ⟨j, hj, -⟩
    omega
  | succ f ih =>
    rintro k ⟨j, hj, hfree⟩
    by_cases hk : (base ++ natToString k) ∈ existing
    · have hj0 : j ≠ 0 := by
        rintro rfl
        rw [Nat.add_zero] at hfree
        exact hfree hk
      have hex : ∃ j2, j2 < f ∧ (base ++ natToString (k + 1 + j2)) ∉ existing := by
        refine ⟨j - 1, by omega, ?_⟩
        have he : k + 1 + (j - 1) = k + j := by omega
        rw [he]
        exact hfree
      obtain ⟨j2, hj2f, hfree2, hmin2, heq2⟩ := ih (k + 1) hex
      refine ⟨j2 + 1, by omega, ?_, ?_, ?_⟩
      · have he : k + (j2 + 1) = k + 1 + j2 := by omega
        rw [he]
        exact hfree2
      · intro i hi
        cases i with
        | zero =>
          rw [Nat.add_zero]
          exact hk
        | succ i2 =>
          have he : k + (i2 + 1) = k + 1 + i2 := by omega
          rw [he]
          exact hmin2 i2 (by omega)
      · simp only [findFreshNameAux, if_pos hk]
        rw [heq2]
        have he : k + 1 + j2 = k + (j2 + 1) := by omega
        rw [he]
    · refine ⟨0, by omega, by rw [Nat.add_zero]; exact hk,
        fun i hi => absurd hi (Nat.not_lt_zero i), ?_⟩
      simp only [findFreshNameAux, if_neg hk]
      rw [Nat.add_zero]

/-- Pigeonhole: among `existing.length + 1` consecutive candidate names
(pairwise distinct) at least one is unused. -/
theorem exists_fresh_suffix (base : String) (existing : List String) (k : Nat) :
    ∃ j, j < existing.length + 1 ∧ (base ++ natToString (k + j)) ∉ existing := by
  by_contra hcon
  push_neg at hcon
  have hinj : Function.Injective (fun j : Nat => base ++ natToString (k + j)) := by
    intro a b hab
    simp only at hab
    have hd := congrArg String.data hab
    rw [String.data_append, String.data_append] at hd
    have hs : natToString (k + a) = natToString (k + b) :=
      String.ext (List.append_cancel_left hd)
    have := natToString_injective hs
    omega
  have hnodup : ((List.range (existing.length + 1)).map
      (fun j => base ++ natToString (k + j))).Nodup :=
    List.Nodup.map hinj (List.nodup_range _)
  have hsub : ((List.range (existing.length + 1)).map
      (fun j => base ++ natToString (k + j))).toFinset ⊆ existing.toFinset := by
    intro x hx
    rw [List.mem_toFinset] at hx
    rw [List.mem_toFinset]
    obtain ⟨j, hj, rfl⟩ := List.mem_map.mp hx
    exact hcon j (List.mem_range.mp hj)
  have hcard1 : ((List.range (existing.length + 1)).map
      (fun j => base ++ natToString (k + j))).toFinset.card = existing.length + 1 := by
    rw [List.toFinset_card_of_nodup hnodup, List.length_map, List.length_range]
  have hcard2 := Finset.card_le_card hsub
  have hcard3 := List.toFinset_card_le existing
  omega

/-- C9: when the requested (truthy, i.e. nonempty — `if (!sheetName)`
routes the empty string to the synthesized-name branch) name collides
with an existing sheet name, sheet creation succeeds and returns the
name with the smallest positive integer suffix that is unused among the
known names; the creation endpoint reports exactly that resolved
name. -/
theorem claim_C9_theorem (name : String) (existing : List String)
    (hnm : name ≠ ("" : String)) (h : name ∈ existing) :
    ∃ k : Nat, 1 ≤ k ∧ (name ++ natToString k) ∉ existing ∧
      (∀ i, 1 ≤ i → i < k → (name ++ natToString i) ∈ existing) ∧
      resolveSheetName (some name) existing = name ++ natToString k ∧
      (∀ (st : ServerState) (o : Option Int) (fid : String),
        st.workbookData.map (fun s => s.name) = existing →
        (postSheets st (some name) o fid).1.name = name ++ natToString k) := by
  obtain ⟨j, hj, hfree, hmin, heq⟩ :=
    findFreshNameAux_spec name existing (existing.length + 1) 1
      (exists_fresh_suffix name existing 1)
  have hres : resolveSheetName (some name) existing = name ++ natToString (1 + j) := by
    show (if name = ("" : String) then
        findFreshNameAux ("Sheet") existing (existing.length + 1) (existing.length + 1)
      else if name ∈ existing then findFreshNameAux name existing (existing.length + 1) 1
      else name) = name ++ natToString (1 + j)
    rw [if_neg hnm, if_pos h]
    exact heq
  refine ⟨1 + j, by omega, hfree, ?_, hres, ?_⟩
  · intro i h1 hik
    have hm := hmin (i - 1) (by omega)
    have he : 1 + (i - 1) = i := by omega
    rwa [he] at hm
  · intro st o fid hnames
    show resolveSheetName (some name) (st.workbookData.map (fun s => s.name)) =
      name ++ natToString (1 + j)
    rw [hnames, hres]

/-- C9 witness: creating "Sheet1" while "Sheet1" exists (and "Sheet11"
does not) yields "Sheet11". -/
theorem claim_C9_witness :
    (("Sheet1" : String) ∈ [("Sheet1" : String)]) ∧
    (∃ k : Nat, 1 ≤ k ∧ (("Sheet1" : String) ++ natToString k) ∉ [("Sheet1" : String)] ∧
      (∀ i, 1 ≤ i → i < k → (("Sheet1" : String) ++ natToString i) ∈ [("Sheet1" : String)]) ∧
      resolveSheetName (some ("Sheet1")) [("Sheet1")] = ("Sheet1" : String) ++ natToString k ∧
      (∀ (st : ServerState) (o : Option Int) (fid : String),
        st.workbookData.map (fun s => s.name) = [("Sheet1" : String)] →
        (postSheets st (some ("Sheet1")) o fid).1.name =
          ("Sheet1" : String) ++ natToString k)) ∧
    resolveSheetName (some ("Sheet1")) [("Sheet1")] = ("Sheet11" : String) :=
  ⟨by decide, claim_C9_theorem ("Sheet1") [("Sheet1")] (by decide) (by decide), by decide⟩

/-! ## Theorems: table-format precedence -/

/-- Unfolding `validEntries` over the first table row. -/
theorem validEntries_cons (re : String × List (String × Option CellVal)) (rest : Table) :
    validEntries (re :: rest) =
      (match rowOfKey re.1 with
       | none => []
       | some row => re.2.filterMap (fun e =>
           match e.2 with
           | none => none
           | some v => (colOfKey e.1).map (fun col => (row, col, v)))) ++
      validEntries rest := by
  simp [validEntries]

/-- The inner values loop over one row equals the core fold over that
row's valid entries. -/
theorem valuesCols_flatten (row : Int) :
    ∀ (cols : List (String × Option CellVal)) (acc : List PendingUpdate × List (Int × Int)),
    cols.foldl (valuesStepCell row) acc =
      (cols.filterMap (fun e =>
        match e.2 with
        | none => none
        | some v => (colOfKey e.1).map (fun col => (row, col, v)))).foldl coreValuesStep acc := by
  intro cols
  induction cols with
  | nil => intro acc; rfl
  | cons e rest ih =>
    intro acc
    simp only [List.foldl_cons, List.filterMap_cons]
    cases he : e.2 with
    | none =>
      simp only [valuesStepCell, he]
      exact ih acc
    | some v =>
      cases hc : colOfKey e.1 with
      | none =>
        simp only [valuesStepCell, he, hc, Option.map_none']
        exact ih acc
      | some col =>
        simp only [valuesStepCell, he, hc, Option.map_some', List.foldl_cons]
        rw [ih]
        rfl

/-- The values walk is the core fold over the valid entries. -/
theorem processValues_flatten :
    ∀ (t : Table) (acc : List PendingUpdate × List (Int × Int)),
    t.foldl valuesStepRow acc = (validEntries t).foldl coreValuesStep acc := by
  intro t
  induction t with
  | nil => intro acc; rfl
  | cons re rest ih =>
    intro acc
    rw [List.foldl_cons, validEntries_cons, List.foldl_append]
    cases hr : rowOfKey re.1 with
    | none =>
      simp only [valuesStepRow, hr]
      exact ih acc
    | some row =>
      simp only [valuesStepRow, hr]
      rw [valuesCols_flatten row re.2 acc]
      exact ih _

/-- The inner formulas loop over one row equals the core fold over that
row's valid entries. -/
theorem formulasCols_flatten (row : Int) :
    ∀ (cols : List (String × Option CellVal)) (us : List PendingUpdate),
    cols.foldl (formulasStepCell row) us =
      (cols.filterMap (fun e =>
        match e.2 with
        | none => none
        | some v => (colOfKey e.1).map (fun col => (row, col, v)))).foldl coreFormulasStep us := by
  intro cols
  induction cols with
  | nil => intro us; rfl
  | cons e rest ih =>
    intro us
    simp only [List.foldl_cons, List.filterMap_cons]
    cases he : e.2 with
    | none =>
      simp only [formulasStepCell, he]
      exact ih us
    | some v =>
      cases hc : colOfKey e.1 with
      | none =>
        simp only [formulasStepCell, he, hc, Option.map_none']
        exact ih us
      | some col =>
        simp only [formulasStepCell, he, hc, Option.map_some', List.foldl_cons]
        rw [ih]
        rfl

/-- The formulas walk is the core fold over the valid entries. -/
theorem formulas_flatten :
    ∀ (t : Table) (us : List PendingUpdate),
    t.foldl formulasStepRow us = (validEntries t).foldl coreFormulasStep us := by
  intro t
  induction t with
  | nil => intro us; rfl
  | cons re rest ih =>
    intro us
    rw [List.foldl_cons, validEntries_cons, List.foldl_append]
    cases hr : rowOfKey re.1 with
    | none =>
      simp only [formulasStepRow, hr]
      exact ih us
    | some row =>
      simp only [formulasStepRow, hr]
      rw [formulasCols_flatten row re.2 us]
      exact ih _

/-- The row and column of a formulas-walk update are the entry position,
whatever the formula test decides. -/
theorem mkTableUpdate_row (r c : Int) (v : CellVal) : (mkTableUpdate r c v).row = r := by
  unfold mkTableUpdate
  split <;> rfl

/-- Column counterpart of `mkTableUpdate_row`. -/
theorem mkTableUpdate_col (r c : Int) (v : CellVal) : (mkTableUpdate r c v).col = c := by
  unfold mkTableUpdate
  split <;> rfl

/-- Erasing the first match from a list with at most one match removes
every match. -/
theorem filter_eraseP_of_le_one {α : Type} (q : α → Bool) :
    ∀ l : List α, (l.filter q).length ≤ 1 → (l.eraseP q).filter q = [] := by
  intro l
  induction l with
  | nil => intro _; rfl
  | cons a t ih =>
    intro h
    by_cases hq : q a = true
    · rw [List.eraseP_cons, hq]
      simp only [cond_true]
      rw [List.filter_cons_of_pos hq] at h
      have hlen : (t.filter q).length = 0 := by
        simp only [List.length_cons] at h
        omega
      exact List.length_eq_zero.mp hlen
    · have hq2 : q a = false := Bool.eq_false_iff.mpr hq
      rw [List.eraseP_cons, hq2]
      simp only [cond_false]
      rw [List.filter_cons_of_neg (by rw [hq2]; exact Bool.false_ne_true)]
      rw [List.filter_cons_of_neg (by rw [hq2]; exact Bool.false_ne_true)] at h
      exact ih h

/-- Erasing a match of `p` never changes the matches of a disjoint `q`. -/
theorem filter_eraseP_of_disjoint {α : Type} (p q : α → Bool)
    (hpq : ∀ x, p x = true → q x = false) :
    ∀ l : List α, (l.eraseP p).filter q = l.filter q := by
  intro l
  induction l with
  | nil => rfl
  | cons a t ih =>
    by_cases hp : p a = true
    · rw [List.eraseP_cons, hp]
      simp only [cond_true]
      rw [List.filter_cons_of_neg (by rw [hpq a hp]; exact Bool.false_ne_true)]
    · have hp2 : p a = false := Bool.eq_false_iff.mpr hp
      rw [List.eraseP_cons, hp2]
      simp only [cond_false]
      by_cases hqa : q a = true
      · rw [List.filter_cons_of_pos hqa, List.filter_cons_of_pos hqa, ih]
      · have hqa2 : q a = false := Bool.eq_false_iff.mpr hqa
        rw [List.filter_cons_of_neg (by rw [hqa2]; exact Bool.false_ne_true),
          List.filter_cons_of_neg (by rw [hqa2]; exact Bool.false_ne_true), ih]

/-- A formulas-walk step leaves exactly its own update at its position
when the queue held at most one update there. -/
theorem coreFormulasStep_filter_self (us : List PendingUpdate) (e : Int × Int × CellVal)
    (h : (us.filter (fun u => u.row == e.1 && u.col == e.2.1)).length ≤ 1) :
    (coreFormulasStep us e).filter (fun u => u.row == e.1 && u.col == e.2.1) =
      [mkTableUpdate e.1 e.2.1 e.2.2] := by
  unfold coreFormulasStep
  rw [List.filter_append, filter_eraseP_of_le_one _ _ h]
  have hq : ((mkTableUpdate e.1 e.2.1 e.2.2).row == e.1 &&
      (mkTableUpdate e.1 e.2.1 e.2.2).col == e.2.1) = true := by
    rw [mkTableUpdate_row, mkTableUpdate_col]
    simp
  rw [List.nil_append, List.filter_cons, if_pos hq, List.filter_nil]

/-- A position different from an update position makes the position
predicate false on that update. -/
theorem posPred_mk_false {r c r2 c2 : Int} (hne : (r, c) ≠ (r2, c2))
    (u : PendingUpdate) (hur : u.row = r2) (huc : u.col = c2) :
    (u.row == r && u.col == c) = false := by
  rw [hur, huc]
  rw [Bool.eq_false_iff]
  intro hq
  rw [Bool.and_eq_true, beq_iff_eq, beq_iff_eq] at hq
  exact hne (by rw [hq.1, hq.2])

/-- A formulas-walk step preserves the at-most-one-per-position
invariant. -/
theorem coreFormulasStep_atMostOne (us : List PendingUpdate) (e : Int × Int × CellVal)
    (h : atMostOnePos us) : atMostOnePos (coreFormulasStep us e) := by
  intro r c
  unfold coreFormulasStep
  rw [List.filter_append]
  by_cases hpos : (r, c) = (e.1, e.2.1)
  · have hr : r = e.1 := congrArg Prod.fst hpos
    have hc : c = e.2.1 := congrArg Prod.snd hpos
    subst hr
    subst hc
    rw [filter_eraseP_of_le_one _ _ (h e.1 e.2.1), List.nil_append]
    exact List.length_filter_le _ _
  · have hqmk : ((mkTableUpdate e.1 e.2.1 e.2.2).row == r &&
        (mkTableUpdate e.1 e.2.1 e.2.2).col == c) = false :=
      posPred_mk_false hpos _ (mkTableUpdate_row _ _ _) (mkTableUpdate_col _ _ _)
    rw [List.filter_cons, if_neg (by rw [hqmk]; exact Bool.false_ne_true), List.filter_nil,
      List.append_nil]
    calc ((us.eraseP (fun u => u.row == e.1 && u.col == e.2.1)).filter
            (fun u => u.row == r && u.col == c)).length
        ≤ (us.filter (fun u => u.row == r && u.col == c)).length :=
          List.Sublist.length_le (List.Sublist.filter _ (List.eraseP_sublist us))
      _ ≤ 1 := h r c

/-- Positions never named by the remaining formula entries keep their
queued updates through the formulas fold. -/
theorem formulasFold_filter_untouched :
    ∀ (entries : List (Int × Int × CellVal)) (us : List PendingUpdate) (r c : Int),
    (r, c) ∉ entries.map (fun e => (e.1, e.2.1)) →
    (entries.foldl coreFormulasStep us).filter (fun u => u.row == r && u.col == c) =
      us.filter (fun u => u.row == r && u.col == c) := by
  intro entries
  induction entries with
  | nil => intro us r c _; rfl
  | cons e rest ih =>
    intro us r c hnot
    rw [List.map_cons, List.mem_cons] at hnot
    push_neg at hnot
    rw [List.foldl_cons, ih _ _ _ hnot.2]
    unfold coreFormulasStep
    rw [List.filter_append]
    have hqmk : ((mkTableUpdate e.1 e.2.1 e.2.2).row == r &&
        (mkTableUpdate e.1 e.2.1 e.2.2).col == c) = false :=
      posPred_mk_false hnot.1 _ (mkTableUpdate_row _ _ _) (mkTableUpdate_col _ _ _)
    rw [List.filter_cons, if_neg (by rw [hqmk]; exact Bool.false_ne_true), List.filter_nil,
      List.append_nil]
    exact filter_eraseP_of_disjoint _ _
      (fun x hx => by
        rw [Bool.and_eq_true, beq_iff_eq, beq_iff_eq] at hx
        exact posPred_mk_false hnot.1 x hx.1 hx.2) us

/-- Every valid formulas entry ends up as the unique queued update at its
position after the formulas fold. -/
theorem formulasFold_filter_mem :
    ∀ (entries : List (Int × Int × CellVal)) (us : List PendingUpdate),
    atMostOnePos us → (entries.map (fun e => (e.1, e.2.1))).Nodup →
    ∀ e ∈ entries,
    (entries.foldl coreFormulasStep us).filter (fun u => u.row == e.1 && u.col == e.2.1) =
      [mkTableUpdate e.1 e.2.1 e.2.2] := by
  intro entries
  induction entries with
  | nil =>
    intro us _ _ e he
    exact absurd he (List.not_mem_nil e)
  | cons e0 rest ih =>
    intro us hA hN e he
    rw [List.map_cons, List.nodup_cons] at hN
    rw [List.foldl_cons]
    rcases List.mem_cons.mp he with rfl | hmem
    · rw [formulasFold_filter_untouched rest _ e.1 e.2.1 hN.1]
      exact coreFormulasStep_filter_self us e (hA e.1 e.2.1)
    · exact ih (coreFormulasStep us e0) (coreFormulasStep_atMostOne us e0 hA) hN.2 e hmem

/-- The values fold appends one update per entry when no entry position
was processed before and the entry positions are distinct. -/
theorem valuesFold_eq_map :
    ∀ (entries : List (Int × Int × CellVal)) (us : List PendingUpdate)
      (proc : List (Int × Int)),
    (∀ e ∈ entries, (e.1, e.2.1) ∉ proc) →
    (entries.map (fun e => (e.1, e.2.1))).Nodup →
    (entries.foldl coreValuesStep (us, proc)).1 =
      us ++ entries.map (fun e => mkValueUpdate e.1 e.2.1 e.2.2) := by
  intro entries
  induction entries with
  | nil =>
    intro us proc _ _
    simp
  | cons e rest ih =>
    intro us proc hdisj hN
    rw [List.map_cons, List.nodup_cons] at hN
    rw [List.foldl_cons]
    have hnotin : (e.1, e.2.1) ∉ proc := hdisj e (List.mem_cons_self e rest)
    show (rest.foldl coreValuesStep (coreValuesStep (us, proc) e)).1 = _
    rw [show coreValuesStep (us, proc) e =
        (us ++ [mkValueUpdate e.1 e.2.1 e.2.2], (e.1, e.2.1) :: proc) from by
      unfold coreValuesStep
      rw [if_neg hnotin]]
    rw [ih (us ++ [mkValueUpdate e.1 e.2.1 e.2.2]) ((e.1, e.2.1) :: proc) ?_ hN.2]
    · rw [List.map_cons, List.append_assoc, List.singleton_append]
    · intro e2 he2
      rw [List.mem_cons]
      push_neg
      refine ⟨fun heq => hN.1 ?_, hdisj e2 (List.mem_cons_of_mem _ he2)⟩
      rw [← heq]
      exact List.mem_map.mpr ⟨e2, he2, rfl⟩

/-- Positions absent from the entries have no update in the mapped
values batch. -/
theorem map_mkValue_filter_not_mem :
    ∀ (entries : List (Int × Int × CellVal)) (r c : Int),
    (r, c) ∉ entries.map (fun e => (e.1, e.2.1)) →
    (entries.map (fun e => mkValueUpdate e.1 e.2.1 e.2.2)).filter
      (fun u => u.row == r && u.col == c) = [] := by
  intro entries
  induction entries with
  | nil => intro r c _; rfl
  | cons e rest ih =>
    intro r c hnot
    rw [List.map_cons, List.mem_cons] at hnot
    push_neg at hnot
    have hq : ((mkValueUpdate e.1 e.2.1 e.2.2).row == r &&
        (mkValueUpdate e.1 e.2.1 e.2.2).col == c) = false :=
      posPred_mk_false hnot.1 (mkValueUpdate e.1 e.2.1 e.2.2) rfl rfl
    rw [List.map_cons, List.filter_cons, if_neg (by rw [hq]; exact Bool.false_ne_true)]
    exact ih r c hnot.2

/-- Each entry of a position-distinct batch is the unique update at its
position in the mapped values batch. -/
theorem map_mkValue_filter_mem :
    ∀ (entries : List (Int × Int × CellVal)),
    (entries.map (fun e => (e.1, e.2.1))).Nodup →
    ∀ e ∈ entries,
    (entries.map (fun e2 => mkValueUpdate e2.1 e2.2.1 e2.2.2)).filter
      (fun u => u.row == e.1 && u.col == e.2.1) = [mkValueUpdate e.1 e.2.1 e.2.2] := by
  intro entries
  induction entries with
  | nil =>
    intro _ e he
    exact absurd he (List.not_mem_nil e)
  | cons e0 rest ih =>
    intro hN e he
    rw [List.map_cons, List.nodup_cons] at hN
    rw [List.map_cons, List.filter_cons]
    rcases List.mem_cons.mp he with rfl | hmem
    · have hq : ((mkValueUpdate e.1 e.2.1 e.2.2).row == e.1 &&
          (mkValueUpdate e.1 e.2.1 e.2.2).col == e.2.1) = true := by
        show (e.1 == e.1 && e.2.1 == e.2.1) = true
        simp
      rw [if_pos hq, map_mkValue_filter_not_mem rest e.1 e.2.1 hN.1]
    · have hne : (e.1, e.2.1) ≠ (e0.1, e0.2.1) := by
        intro heq
        exact hN.1 (heq ▸ List.mem_map.mpr ⟨e, hmem, rfl⟩)
      have hq : ((mkValueUpdate e0.1 e0.2.1 e0.2.2).row == e.1 &&
          (mkValueUpdate e0.1 e0.2.1 e0.2.2).col == e.2.1) = false :=
        posPred_mk_false hne (mkValueUpdate e0.1 e0.2.1 e0.2.2) rfl rfl
      rw [if_neg (by rw [hq]; exact Bool.false_ne_true)]
      exact ih hN.2 e hmem

/-- The mapped values batch holds at most one update per position when
the entry positions are distinct. -/
theorem map_mkValue_atMostOne (entries : List (Int × Int × CellVal))
    (hN : (entries.map (fun e => (e.1, e.2.1))).Nodup) :
    atMostOnePos (entries.map (fun e => mkValueUpdate e.1 e.2.1 e.2.2)) := by
  intro r c
  by_cases hmem : (r, c) ∈ entries.map (fun e => (e.1, e.2.1))
  · obtain ⟨e, he, hpe⟩ := List.mem_map.mp hmem
    have hr : e.1 = r := congrArg Prod.fst hpe
    have hc : e.2.1 = c := congrArg Prod.snd hpe
    rw [← hr, ← hc, map_mkValue_filter_mem entries hN e he]
    exact Nat.le_refl 1
  · rw [map_mkValue_filter_not_mem entries r c hmem]
    exact Nat.zero_le 1

/-- C2: in one `from-table` call, a cell named (with a non-null entry)
by the formulas table ends up with exactly one queued update, carrying
the formulas-table entry (as formula when it starts with `=`, else as a
literal value); a cell named only by the values table keeps exactly one
plain-value update.  The endpoint appends exactly this batch to the
per-sheet queue.  Hypotheses: within each table, each decoded position
occurs once (the shape the projection produces). -/
theorem claim_C2_theorem (vt ft : Table)
    (hv : (validPositions vt).Nodup) (hf : (validPositions ft).Nodup) :
    (∀ e ∈ validEntries ft,
      (processFromTables (some vt) (some ft)).filter
        (fun u => u.row == e.1 && u.col == e.2.1) = [mkTableUpdate e.1 e.2.1 e.2.2]) ∧
    (∀ e ∈ validEntries vt, (e.1, e.2.1) ∉ validPositions ft →
      (processFromTables (some vt) (some ft)).filter
        (fun u => u.row == e.1 && u.col == e.2.1) = [mkValueUpdate e.1 e.2.1 e.2.2]) ∧
    (∀ (st : ServerState) (sid : String) (s : Sheet),
      st.workbookData.find? (fun s2 => s2.id == sid) = some s →
      (postFromTable st sid (some vt) (some ft)).2.pendingUpdates =
        pushUpdates st.pendingUpdates sid (processFromTables (some vt) (some ft))) := by
  have hmain : processFromTables (some vt) (some ft) =
      (validEntries ft).foldl coreFormulasStep
        ((validEntries vt).map (fun e => mkValueUpdate e.1 e.2.1 e.2.2)) := by
    show ft.foldl formulasStepRow (vt.foldl valuesStepRow ([], [])).1 = _
    rw [formulas_flatten, processValues_flatten]
    rw [valuesFold_eq_map (validEntries vt) [] []
      (fun e _ => List.not_mem_nil (e.1, e.2.1)) hv]
    rw [List.nil_append]
  refine ⟨?_, ?_, ?_⟩
  · intro e he
    rw [hmain]
    exact formulasFold_filter_mem (validEntries ft) _
      (map_mkValue_atMostOne (validEntries vt) hv) hf e he
  · intro e he hnot
    rw [hmain]
    rw [formulasFold_filter_untouched (validEntries ft) _ e.1 e.2.1 hnot]
    exact map_mkValue_filter_mem (validEntries vt) hv e he
  · intro st sid s hfind
    simp only [postFromTable, hfind]

/-- C2 witness: the concrete precedence scenario — values table sets A1
to "x", formulas table sets A1 to "=B1"; exactly one update is built,
carrying the formula "=B1" and not the value "x". -/
theorem claim_C2_witness :
    (validPositions [(("1"), [(("A"), some (CellVal.str ("x")))])]).Nodup ∧
    (validPositions [(("1"), [(("A"), some (CellVal.str ("=B1")))])]).Nodup ∧
    ((0, 0, CellVal.str ("=B1")) ∈
      validEntries [(("1"), [(("A"), some (CellVal.str ("=B1")))])]) ∧
    processFromTables (some [(("1"), [(("A"), some (CellVal.str ("x")))])])
        (some [(("1"), [(("A"), some (CellVal.str ("=B1")))])]) =
      [{ row := 0, col := 0, value := none, formula := some (CellVal.str ("=B1")),
         cell := ("A1") }] ∧
    (processFromTables (some [(("1"), [(("A"), some (CellVal.str ("x")))])])
        (some [(("1"), [(("A"), some (CellVal.str ("=B1")))])])).filter
      (fun u => u.row == (0 : Int) && u.col == (0 : Int)) =
      [mkTableUpdate 0 0 (CellVal.str ("=B1"))] :=
  ⟨by decide, by decide, by decide, by decide,
   (claim_C2_theorem [(("1"), [(("A"), some (CellVal.str ("x")))])]
      [(("1"), [(("A"), some (CellVal.str ("=B1")))])] (by decide) (by decide)).1
     (0, 0, CellVal.str ("=B1")) (by decide)⟩

/-! ## Theorems: Map model -/

/-- Setting a key under a failing head commutes with the head. -/
theorem mapSet_cons_of_ne {α : Type} (e : String × α) (t : List (String × α))
    (k : String) (v : α) (he : (e.1 == k) = false) :
    mapSet (e :: t) k v = e :: mapSet t k v := by
  unfold mapSet
  rw [List.find?_cons_of_neg t (by rw [he]; exact Bool.false_ne_true)]
  by_cases h : (t.find? (fun e2 => e2.1 == k)).isSome = true
  · rw [if_pos h, if_pos h, List.map_cons, if_neg (by rw [he]; exact Bool.false_ne_true)]
  · rw [if_neg h, if_neg h, List.cons_append]

/-- `Map.set` then `Map.get` at the same key yields the set value. -/
theorem mapGet_mapSet_self {α : Type} (k : String) (v : α) :
    ∀ m : List (String × α), mapGet (mapSet m k v) k = some v := by
  intro m
  induction m with
  | nil =>
    unfold mapSet mapGet
    simp
  | cons e t ih =>
    by_cases he : (e.1 == k) = true
    · unfold mapSet
      rw [List.find?_cons_of_pos t he]
      simp only [Option.isSome_some, if_true]
      rw [List.map_cons, if_pos he]
      unfold mapGet
      simp
    · have he2 : (e.1 == k) = false := Bool.eq_false_iff.mpr he
      rw [mapSet_cons_of_ne e t k v he2]
      unfold mapGet
      rw [List.find?_cons_of_neg _ (by rw [he2]; exact Bool.false_ne_true)]
      exact ih

/-- The enqueue pattern on a sheet with no queue yet creates the queue
holding exactly the pushed updates. -/
theorem mapGet_pushUpdates_of_none (m : List (String × List PendingUpdate))
    (k : String) (us : List PendingUpdate) (h : mapGet m k = none) :
    mapGet (pushUpdates m k us) k = some us := by
  unfold pushUpdates
  rw [h]
  simp only [Option.isSome_none, Bool.false_eq_true, if_false]
  rw [mapGet_mapSet_self k ([] : List PendingUpdate) m]
  simp only [Option.getD_some, List.nil_append]
  exact mapGet_mapSet_self k us (mapSet m k [])

/-! ## Theorems: unknown sheet ids on the enqueue endpoints -/

/-- No sheet of the snapshot matches an id absent from it. -/
theorem find?_sheet_none (st : ServerState) (sid : String)
    (h : ∀ s ∈ st.workbookData, s.id ≠ sid) :
    st.workbookData.find? (fun s => s.id == sid) = none :=
  List.find?_eq_none.mpr (fun s hs hbeq => h s hs (by rwa [beq_iff_eq] at hbeq))

/-- C5 counterexample: with an empty snapshot, all three enqueue
operations REJECT the unknown sheet id with a sheet-not-found error and
leave the state untouched — no queue is lazily created. -/
theorem claim_C5_counterexample :
    postCell { workbookData := [], pendingUpdates := [], pendingSheetCreations := [] }
        ("ghost") { cell := some ("A1"), value := some (.str ("x")), formula := none } =
      (.sheetNotFound,
       { workbookData := [], pendingUpdates := [], pendingSheetCreations := [] }) ∧
    postCells { workbookData := [], pendingUpdates := [], pendingSheetCreations := [] }
        ("ghost") (some []) =
      (.sheetNotFound,
       { workbookData := [], pendingUpdates := [], pendingSheetCreations := [] }) ∧
    postFromTable { workbookData := [], pendingUpdates := [], pendingSheetCreations := [] }
        ("ghost") (some []) none =
      (.sheetNotFound,
       { workbookData := [], pendingUpdates := [], pendingSheetCreations := [] }) := by
  refine ⟨?_, ?_, ?_⟩
  · decide
  · decide
  · decide

/-- C5 (amended): every enqueue operation checks the snapshot first and
rejects an unknown sheet id with a sheet-not-found error, leaving the
state unchanged; only for a sheet the snapshot knows is the per-sheet
queue created lazily on first enqueue. -/
theorem claim_C5_theorem :
    (∀ (st : ServerState) (sid : String) (b : CellBody),
      (∀ s ∈ st.workbookData, s.id ≠ sid) → postCell st sid b = (.sheetNotFound, st)) ∧
    (∀ (st : ServerState) (sid : String) (cells : Option (List CellBody)),
      (∀ s ∈ st.workbookData, s.id ≠ sid) → postCells st sid cells = (.sheetNotFound, st)) ∧
    (∀ (st : ServerState) (sid : String) (vt ft : Option Table),
      (∀ s ∈ st.workbookData, s.id ≠ sid) →
      postFromTable st sid vt ft = (.sheetNotFound, st)) ∧
    (∀ (st : ServerState) (sid : String) (b : CellBody) (s : Sheet)
        (cellRef : String) (coords : Coords),
      st.workbookData.find? (fun s2 => s2.id == sid) = some s →
      mapGet st.pendingUpdates sid = none →
      b.cell = some cellRef → cellRef ≠ ("" : String) →
      parseCellReference cellRef = some coords →
      mapGet (postCell st sid b).2.pendingUpdates sid =
        some [mkPointUpdate coords b cellRef]) := by
  refine ⟨?_, ?_, ?_, ?_⟩
  · intro st sid b h
    simp only [postCell, find?_sheet_none st sid h]
  · intro st sid cells h
    simp only [postCells, find?_sheet_none st sid h]
  · intro st sid vt ft h
    simp only [postFromTable, find?_sheet_none st sid h]
  · intro st sid b s cellRef coords hfind hq hcell hne hparse
    simp only [postCell, hfind, hcell, if_neg hne, hparse]
    exact mapGet_pushUpdates_of_none st.pendingUpdates sid _ hq

/-- C5 witness: the amended theorem applied at an unknown id on an empty
snapshot and at a known sheet with an empty queue. -/
theorem claim_C5_witness :
    postCell { workbookData := [], pendingUpdates := [], pendingSheetCreations := [] }
        ("nope") { cell := some ("B2"), value := none, formula := some ("=A1") } =
      (.sheetNotFound,
       { workbookData := [], pendingUpdates := [], pendingSheetCreations := [] }) ∧
    mapGet (postCell
        { workbookData := [{ id := "s1", name := "Sheet1", order := 0, data := none }],
          pendingUpdates := [], pendingSheetCreations := [] }
        ("s1")
        { cell := some ("B2"), value := none, formula := some ("=A1") }).2.pendingUpdates
      ("s1") =
      some [mkPointUpdate { row := 1, col := 1 }
        { cell := some ("B2"), value := none, formula := some ("=A1") } ("B2")] :=
  ⟨claim_C5_theorem.1 _ ("nope") _ (by decide),
   claim_C5_theorem.2.2.2 _ ("s1") _
     { id := "s1", name := "Sheet1", order := 0, data := none } ("B2")
     { row := 1, col := 1 } (by decide) (by decide) (by decide) (by decide) (by decide)⟩
/-! ## Theorems: the sheet-creation queue drain/clear pair -/

/-- C6 counterexample: the only operation that returns the pending
creation requests leaves the queue untouched — after the read the
request is still queued, so read-and-remove is not one atomic step. -/
theorem claim_C6_counterexample :
    (getPendingSheetCreations { workbookData := [], pendingUpdates := [], pendingSheetCreations := [{ id := "n1", name := "New", order := 0, sheetData := { id := "n1", name := "New", order := 0, data := some [] } }] }).1.1 =
      [{ id := "n1", name := "New", order := 0, sheetData := { id := "n1", name := "New", order := 0, data := some [] } }] ∧
    (getPendingSheetCreations { workbookData := [], pendingUpdates := [], pendingSheetCreations := [{ id := "n1", name := "New", order := 0, sheetData := { id := "n1", name := "New", order := 0, data := some [] } }] }).2 =
      { workbookData := [], pendingUpdates := [], pendingSheetCreations := [{ id := "n1", name := "New", order := 0, sheetData := { id := "n1", name := "New", order := 0, data := some [] } }] } ∧
    ({ workbookData := [], pendingUpdates := [], pendingSheetCreations := [{ id := "n1", name := "New", order := 0, sheetData := { id := "n1", name := "New", order := 0, data := some [] } }] } : ServerState).pendingSheetCreations ≠ [] := by
  refine ⟨rfl, rfl, ?_⟩
  decide

/-- C6 (amended): draining the creation queue takes two separate
operations, like the update queue — the GET returns all pending requests
without removing anything, and the separate DELETE empties the queue
wholesale, including any request enqueued between the two calls, which
the earlier read never returned. -/
theorem claim_C6_theorem (st : ServerState) (nm : Option String) (o : Option Int)
    (fid : String) :
    (getPendingSheetCreations st).1.1 = st.pendingSheetCreations ∧
    (getPendingSheetCreations st).2 = st ∧
    (deletePendingSheetCreations st).2.pendingSheetCreations = [] ∧
    (deletePendingSheetCreations st).1 = st.pendingSheetCreations.length ∧
    (postSheets ((getPendingSheetCreations st).2) nm o fid).2.pendingSheetCreations.length =
      st.pendingSheetCreations.length + 1 ∧
    (deletePendingSheetCreations
      (postSheets ((getPendingSheetCreations st).2) nm o fid).2).2.pendingSheetCreations = [] ∧
    (fid ∉ st.pendingSheetCreations.map (fun r => r.id) →
      ∀ r ∈ (getPendingSheetCreations st).1.1, r.id ≠ fid) := by
  refine ⟨rfl, rfl, rfl, rfl, ?_, rfl, ?_⟩
  · show (st.pendingSheetCreations ++ [_]).length = st.pendingSheetCreations.length + 1
    rw [List.length_append, List.length_cons, List.length_nil]
  · intro hfid r hr heq
    exact hfid (List.mem_map.mpr ⟨r, hr, heq⟩)

/-- C6 witness: the amended theorem at a concrete one-request state. -/
theorem claim_C6_witness :
    (getPendingSheetCreations { workbookData := [], pendingUpdates := [], pendingSheetCreations := [{ id := "n1", name := "New", order := 0, sheetData := { id := "n1", name := "New", order := 0, data := some [] } }] }).1.1 =
      [{ id := "n1", name := "New", order := 0, sheetData := { id := "n1", name := "New", order := 0, data := some [] } }] ∧
    (deletePendingSheetCreations (postSheets ((getPendingSheetCreations { workbookData := [], pendingUpdates := [], pendingSheetCreations := [{ id := "n1", name := "New", order := 0, sheetData := { id := "n1", name := "New", order := 0, data := some [] } }] }).2) (some ("Extra")) none ("n2")).2).2.pendingSheetCreations = [] :=
  ⟨(claim_C6_theorem { workbookData := [], pendingUpdates := [], pendingSheetCreations := [{ id := "n1", name := "New", order := 0, sheetData := { id := "n1", name := "New", order := 0, data := some [] } }] } (some ("Extra")) none ("n2")).1,
   (claim_C6_theorem { workbookData := [], pendingUpdates := [], pendingSheetCreations := [{ id := "n1", name := "New", order := 0, sheetData := { id := "n1", name := "New", order := 0, data := some [] } }] } (some ("Extra")) none ("n2")).2.2.2.2.2.1⟩

/-! ## Theorems: projection bounds -/

/-- C8: a sheet whose only non-empty cell sits at 0-based (5, 3)
projects tables spanning exactly rows "1"–"6" and columns "A"–"D", with
every entry null except row "6" column "D", which carries the cell's
display value (values table) and formula-or-value (formulas table); and
a completely empty sheet still projects bounds (0, 0), i.e. at least row
"1" column "A". -/
theorem claim_C8_theorem (c0 : CellData) :
    projectSheet { id := "s1", name := "S", order := 0, data := some [some [], some [], some [], some [], some [], some [none, none, none, some c0]] } =
      { maxRow := 5, maxCol := 3,
        valuesTable := [
          (("1"), [(("A"), none), (("B"), none), (("C"), none), (("D"), none)]),
          (("2"), [(("A"), none), (("B"), none), (("C"), none), (("D"), none)]),
          (("3"), [(("A"), none), (("B"), none), (("C"), none), (("D"), none)]),
          (("4"), [(("A"), none), (("B"), none), (("C"), none), (("D"), none)]),
          (("5"), [(("A"), none), (("B"), none), (("C"), none), (("D"), none)]),
          (("6"), [(("A"), none), (("B"), none), (("C"), none), (("D"), displayValue c0)])],
        formulasTable := [
          (("1"), [(("A"), none), (("B"), none), (("C"), none), (("D"), none)]),
          (("2"), [(("A"), none), (("B"), none), (("C"), none), (("D"), none)]),
          (("3"), [(("A"), none), (("B"), none), (("C"), none), (("D"), none)]),
          (("4"), [(("A"), none), (("B"), none), (("C"), none), (("D"), none)]),
          (("5"), [(("A"), none), (("B"), none), (("C"), none), (("D"), none)]),
          (("6"), [(("A"), none), (("B"), none), (("C"), none), (("D"), formulaOrValue c0)])] } ∧
    projectSheet { id := "s2", name := "E", order := 0, data := some [] } =
      { maxRow := 0, maxCol := 0,
        valuesTable := [(("1"), [(("A"), none)])],
        formulasTable := [(("1"), [(("A"), none)])] } := by
  constructor
  · rfl
  · rfl

/-! ## Theorems: immediate snapshot mutation on sheet creation -/

/-- C10: `POST /api/sheets` mutates the held snapshot immediately — with
a requested order below the sheet count the new sheet is inserted at
that position after bumping the order of every held sheet whose order is
at least the request, so `listSheets` already reports the new
`{id, name, order}`; with no order (or one at/above the count) the sheet
is appended; and a subsequent wholesale snapshot replace discards it
again. -/
theorem claim_C10_theorem (st : ServerState) (nm : Option String) (o : Int) (fid : String)
    (h0 : 0 ≤ o) (hlt : o < (st.workbookData.length : Int)) :
    ({ id := fid, name := resolveSheetName nm (st.workbookData.map (fun s => s.name)), order := o } : SheetSummary) ∈ getSheets (postSheets st nm (some o) fid).2 ∧
    ((postSheets st nm (some o) fid).2.workbookData[o.toNat]?).map (fun s => s.id) = some fid ∧
    (∀ s ∈ st.workbookData, ∃ s2 ∈ (postSheets st nm (some o) fid).2.workbookData,
      s2.id = s.id ∧ s2.order = (if o ≤ s.order then s.order + 1 else s.order)) ∧
    (∀ d : List Sheet, (postWorkbookUpdate (postSheets st nm (some o) fid).2 d).2.workbookData = d) ∧
    (postSheets st nm none fid).2.workbookData = st.workbookData ++
      [{ id := fid, name := resolveSheetName nm (st.workbookData.map (fun s => s.name)), order := (st.workbookData.length : Int), data := some [] }] ∧
    (∀ o2 : Int, (st.workbookData.length : Int) ≤ o2 →
      (postSheets st nm (some o2) fid).2.workbookData = st.workbookData ++
        [{ id := fid, name := resolveSheetName nm (st.workbookData.map (fun s => s.name)), order := o2, data := some [] }]) := by
  have hwd : (postSheets st nm (some o) fid).2.workbookData =
      spliceInsert
        (st.workbookData.map (fun s => if o ≤ s.order then { s with order := s.order + 1 } else s))
        o
        { id := fid, name := resolveSheetName nm (st.workbookData.map (fun s => s.name)),
          order := o, data := some [] } := by
    show (if o < (st.workbookData.length : Int) then
        spliceInsert
          (st.workbookData.map (fun s => if o ≤ s.order then { s with order := s.order + 1 } else s))
          o
          { id := fid, name := resolveSheetName nm (st.workbookData.map (fun s => s.name)),
            order := o, data := some [] }
      else st.workbookData ++
        [{ id := fid, name := resolveSheetName nm (st.workbookData.map (fun s => s.name)),
           order := o, data := some [] }]) = _
    rw [if_pos hlt]
  have hidx : spliceIdx
      (st.workbookData.map (fun s => if o ≤ s.order then { s with order := s.order + 1 } else s)).length
      o = o.toNat := by
    rw [List.length_map]
    unfold spliceIdx
    rw [if_neg (by omega : ¬ o < 0)]
    exact min_eq_left (by omega)
  have hlenTake : ((st.workbookData.map (fun s => if o ≤ s.order then { s with order := s.order + 1 } else s)).take o.toNat).length = o.toNat := by
    rw [List.length_take, List.length_map]
    exact min_eq_left (by omega)
  have hmemNew : ({ id := fid, name := resolveSheetName nm (st.workbookData.map (fun s => s.name)), order := o, data := some [] } : Sheet) ∈
      (postSheets st nm (some o) fid).2.workbookData := by
    rw [hwd]
    unfold spliceInsert
    exact List.mem_append.mpr (Or.inl (List.mem_append.mpr (Or.inr (List.mem_singleton.mpr rfl))))
  refine ⟨?_, ?_, ?_, ?_, ?_, ?_⟩
  · exact List.mem_map.mpr ⟨_, hmemNew, rfl⟩
  · rw [hwd]
    unfold spliceInsert
    rw [hidx, List.append_assoc, List.getElem?_append_right (le_of_eq hlenTake), hlenTake]
    simp
  · intro s hs
    refine ⟨(if o ≤ s.order then { s with order := s.order + 1 } else s), ?_, ?_, ?_⟩
    · rw [hwd]
      unfold spliceInsert
      have hmem2 : (if o ≤ s.order then { s with order := s.order + 1 } else s) ∈
          st.workbookData.map (fun s2 => if o ≤ s2.order then { s2 with order := s2.order + 1 } else s2) :=
        List.mem_map.mpr ⟨s, hs, rfl⟩
      have hsplit : (if o ≤ s.order then { s with order := s.order + 1 } else s) ∈
          (st.workbookData.map (fun s2 => if o ≤ s2.order then { s2 with order := s2.order + 1 } else s2)).take (spliceIdx (st.workbookData.map (fun s2 => if o ≤ s2.order then { s2 with order := s2.order + 1 } else s2)).length o) ++
          (st.workbookData.map (fun s2 => if o ≤ s2.order then { s2 with order := s2.order + 1 } else s2)).drop (spliceIdx (st.workbookData.map (fun s2 => if o ≤ s2.order then { s2 with order := s2.order + 1 } else s2)).length o) := by
        rw [List.take_append_drop]
        exact hmem2
      rcases List.mem_append.mp hsplit with hL | hR
      · exact List.mem_append.mpr (Or.inl (List.mem_append.mpr (Or.inl hL)))
      · exact List.mem_append.mpr (Or.inr hR)
    · by_cases h2 : o ≤ s.order
      · rw [if_pos h2]
      · rw [if_neg h2]
    · by_cases h2 : o ≤ s.order
      · rw [if_pos h2, if_pos h2]
      · rw [if_neg h2, if_neg h2]
  · intro d
    rfl
  · rfl
  · intro o2 h2
    show (if o2 < (st.workbookData.length : Int) then
        spliceInsert
          (st.workbookData.map (fun s => if o2 ≤ s.order then { s with order := s.order + 1 } else s))
          o2
          { id := fid, name := resolveSheetName nm (st.workbookData.map (fun s => s.name)),
            order := o2, data := some [] }
      else st.workbookData ++
        [{ id := fid, name := resolveSheetName nm (st.workbookData.map (fun s => s.name)),
           order := o2, data := some [] }]) = _
    rw [if_neg (not_lt.mpr h2)]

/-- C10 witness: a one-sheet snapshot with an insertion at order 0. -/
theorem claim_C10_witness :
    ({ id := "f1", name := resolveSheetName none (({ workbookData := [{ id := "s1", name := "Sheet1", order := 0, data := none }], pendingUpdates := [], pendingSheetCreations := [] } : ServerState).workbookData.map (fun s => s.name)), order := 0 } : SheetSummary) ∈ getSheets (postSheets { workbookData := [{ id := "s1", name := "Sheet1", order := 0, data := none }], pendingUpdates := [], pendingSheetCreations := [] } none (some 0) ("f1")).2 ∧
    ((postSheets { workbookData := [{ id := "s1", name := "Sheet1", order := 0, data := none }], pendingUpdates := [], pendingSheetCreations := [] } none (some 0) ("f1")).2.workbookData[(0 : Int).toNat]?).map (fun s => s.id) = some ("f1") ∧
    (∀ s ∈ ({ workbookData := [{ id := "s1", name := "Sheet1", order := 0, data := none }], pendingUpdates := [], pendingSheetCreations := [] } : ServerState).workbookData, ∃ s2 ∈ (postSheets { workbookData := [{ id := "s1", name := "Sheet1", order := 0, data := none }], pendingUpdates := [], pendingSheetCreations := [] } none (some 0) ("f1")).2.workbookData,
      s2.id = s.id ∧ s2.order = (if (0 : Int) ≤ s.order then s.order + 1 else s.order)) ∧
    (∀ d : List Sheet, (postWorkbookUpdate (postSheets { workbookData := [{ id := "s1", name := "Sheet1", order := 0, data := none }], pendingUpdates := [], pendingSheetCreations := [] } none (some 0) ("f1")).2 d).2.workbookData = d) ∧
    (postSheets { workbookData := [{ id := "s1", name := "Sheet1", order := 0, data := none }], pendingUpdates := [], pendingSheetCreations := [] } none none ("f1")).2.workbookData =
      ({ workbookData := [{ id := "s1", name := "Sheet1", order := 0, data := none }], pendingUpdates := [], pendingSheetCreations := [] } : ServerState).workbookData ++
      [{ id := "f1", name := resolveSheetName none (({ workbookData := [{ id := "s1", name := "Sheet1", order := 0, data := none }], pendingUpdates := [], pendingSheetCreations := [] } : ServerState).workbookData.map (fun s => s.name)), order := ((({ workbookData := [{ id := "s1", name := "Sheet1", order := 0, data := none }], pendingUpdates := [], pendingSheetCreations := [] } : ServerState).workbookData.length : Nat) : Int), data := some [] }] ∧
    (∀ o2 : Int, (({ workbookData := [{ id := "s1", name := "Sheet1", order := 0, data := none }], pendingUpdates := [], pendingSheetCreations := [] } : ServerState).workbookData.length : Int) ≤ o2 →
      (postSheets { workbookData := [{ id := "s1", name := "Sheet1", order := 0, data := none }], pendingUpdates := [], pendingSheetCreations := [] } none (some o2) ("f1")).2.workbookData =
        ({ workbookData := [{ id := "s1", name := "Sheet1", order := 0, data := none }], pendingUpdates := [], pendingSheetCreations := [] } : ServerState).workbookData ++
        [{ id := "f1", name := resolveSheetName none (({ workbookData := [{ id := "s1", name := "Sheet1", order := 0, data := none }], pendingUpdates := [], pendingSheetCreations := [] } : ServerState).workbookData.map (fun s => s.name)), order := o2, data := some [] }]) :=
  claim_C10_theorem { workbookData := [{ id := "s1", name := "Sheet1", order := 0, data := none }], pendingUpdates := [], pendingSheetCreations := [] } none 0 ("f1") (by decide) (by decide)

/-! ## Theorems: the polling reconciliation cycle -/

/-- A queue lookup misses exactly when no entry has the key. -/
theorem mapGet_eq_none {α : Type} (m : List (String × α)) (k : String) :
    mapGet m k = none ↔ ∀ e ∈ m, (e.1 == k) = false := by
  unfold mapGet
  rw [Option.map_eq_none']
  rw [List.find?_eq_none]
  constructor
  · intro h e he
    exact Bool.eq_false_iff.mpr (h e he)
  · intro h e he
    rw [h e he]
    exact Bool.false_ne_true

/-- Deleting one key does not affect lookups at another key. -/
theorem mapGet_eraseKey_ne {α : Type} :
    ∀ (m : List (String × α)) (k k2 : String), k ≠ k2 →
    mapGet (mapErase m k2) k = mapGet m k := by
  intro m
  induction m with
  | nil => intro k k2 _; rfl
  | cons e t ih =>
    intro k k2 hne
    by_cases he2 : (e.1 == k2) = true
    · unfold mapErase
      rw [List.eraseP_cons, he2]
      simp only [cond_true]
      have he2e : e.1 = k2 := by rwa [beq_iff_eq] at he2
      have hekf : (e.1 == k) = false :=
        beq_eq_false_iff_ne.mpr (by rw [he2e]; exact fun h => hne h.symm)
      have hek : ¬((fun (e2 : String × α) => e2.1 == k) e = true) := by
        show ¬((e.1 == k) = true)
        rw [hekf]
        exact Bool.false_ne_true
      unfold mapGet
      rw [@List.find?_cons_of_neg _ (fun e2 => e2.1 == k) e t hek]
    · unfold mapErase
      rw [List.eraseP_cons, Bool.eq_false_iff.mpr he2]
      simp only [cond_false]
      by_cases hpe : ((fun (e2 : String × α) => e2.1 == k) e = true)
      · unfold mapGet
        rw [@List.find?_cons_of_pos _ (fun e2 => e2.1 == k) e
            (List.eraseP (fun e2 => e2.1 == k2) t) hpe,
          @List.find?_cons_of_pos _ (fun e2 => e2.1 == k) e t hpe]
      · unfold mapGet
        rw [@List.find?_cons_of_neg _ (fun e2 => e2.1 == k) e
            (List.eraseP (fun e2 => e2.1 == k2) t) hpe,
          @List.find?_cons_of_neg _ (fun e2 => e2.1 == k) e t hpe]
        exact ih k k2 hne

/-- A missing key stays missing after deleting any key. -/
theorem mapGet_none_eraseKey {α : Type} (m : List (String × α)) (k k2 : String)
    (h : mapGet m k = none) : mapGet (mapErase m k2) k = none := by
  rw [mapGet_eq_none] at h
  rw [mapGet_eq_none]
  intro e he
  exact h e ((List.eraseP_sublist m).subset he)

/-- With distinct keys, deleting a key removes it from lookup. -/
theorem mapGet_eraseKey_self {α : Type} :
    ∀ (m : List (String × α)) (k : String), (m.map (fun e => e.1)).Nodup →
    mapGet (mapErase m k) k = none := by
  intro m
  induction m with
  | nil => intro k _; rfl
  | cons e t ih =>
    intro k hN
    rw [List.map_cons, List.nodup_cons] at hN
    by_cases he : (e.1 == k) = true
    · unfold mapErase
      rw [List.eraseP_cons, he]
      simp only [cond_true]
      rw [mapGet_eq_none]
      intro e2 he2
      rw [beq_eq_false_iff_ne]
      intro h2
      have hekey : e.1 = k := by rwa [beq_iff_eq] at he
      exact hN.1 (by rw [hekey, ← h2]; exact List.mem_map.mpr ⟨e2, he2, rfl⟩)
    · unfold mapErase
      rw [List.eraseP_cons, Bool.eq_false_iff.mpr he]
      simp only [cond_false]
      unfold mapGet
      rw [@List.find?_cons_of_neg _ (fun e2 => e2.1 == k) e
          (List.eraseP (fun e2 => e2.1 == k) t) he]
      exact ih k hN.2

/-- A single client-side cell write never changes the sheet id. -/
theorem applyOneUpdate_id (s : LiveSheet) (u : PendingUpdate) :
    (applyOneUpdate s u).id = s.id := by
  unfold applyOneUpdate setCellValue
  by_cases hf : jsTruthyVal u.formula = true
  · rw [if_pos hf]
    cases u.formula with
    | none => rfl
    | some f => rfl
  · rw [if_neg hf]
    cases u.value with
    | none => rfl
    | some v => rfl

/-- Applying a batch of cell writes never changes the sheet id. -/
theorem applyFold_id :
    ∀ (us : List PendingUpdate) (s : LiveSheet),
    (us.foldl applyOneUpdate s).id = s.id := by
  intro us
  induction us with
  | nil => intro s; rfl
  | cons u rest ih =>
    intro s
    rw [List.foldl_cons, ih]
    exact applyOneUpdate_id s u

/-- The client apply pass preserves the set of live sheet ids. -/
theorem applyUpdatesClient_ids (live : LiveDoc) (sheetId : String)
    (updates : List PendingUpdate) :
    (applyUpdatesClient live sheetId updates).map (fun s => s.id) =
      live.map (fun s => s.id) := by
  unfold applyUpdatesClient
  cases h : live.find? (fun s => s.id == sheetId) with
  | none => rfl
  | some s0 =>
    rw [List.map_map]
    apply List.map_congr_left
    intro s hs
    simp only [Function.comp]
    by_cases hc : (s.id == sheetId) = true
    · rw [if_pos hc]
      exact applyFold_id updates s
    · rw [if_neg hc]

/-- Ids added by the creation pass come from the pending requests. -/
theorem creationFold_ids :
    ∀ (reqs : List SheetCreationRequest) (lv : LiveDoc) (id2 : String),
    id2 ∈ (reqs.foldl (fun lv2 r =>
      if (lv2.find? (fun s => s.id == r.id)).isSome then lv2
      else lv2 ++ [{ id := r.id, name := r.name, cells := [] }]) lv).map (fun s => s.id) →
    id2 ∈ lv.map (fun s => s.id) ∨ id2 ∈ reqs.map (fun r => r.id) := by
  intro reqs
  induction reqs with
  | nil =>
    intro lv id2 h
    exact Or.inl h
  | cons r rest ih =>
    intro lv id2 h
    rw [List.foldl_cons] at h
    rcases ih _ id2 h with h1 | h2
    · by_cases hc : ((lv.find? (fun s => s.id == r.id)).isSome = true)
      · rw [if_pos hc] at h1
        exact Or.inl h1
      · rw [if_neg hc] at h1
        rw [List.map_append, List.mem_append] at h1
        rcases h1 with h1a | h1b
        · exact Or.inl h1a
        · right
          rw [List.map_cons]
          exact List.mem_cons.mpr (Or.inl (List.mem_singleton.mp h1b))
    · right
      rw [List.map_cons]
      exact List.mem_cons.mpr (Or.inr h2)

/-- The creation pass leaves the snapshot and the update queues alone. -/
theorem checkApply_server (server : ServerState) (live : LiveDoc) :
    (checkAndApplyNewSheets server live).1.workbookData = server.workbookData ∧
    (checkAndApplyNewSheets server live).1.pendingUpdates = server.pendingUpdates := by
  unfold checkAndApplyNewSheets deletePendingSheetCreations
  by_cases h : server.pendingSheetCreations = []
  · rw [if_pos h]
    exact ⟨rfl, rfl⟩
  · rw [if_neg h]
    exact ⟨rfl, rfl⟩

/-- A live sheet id after the creation pass was live before or belongs
to a pending creation request. -/
theorem checkApply_live_ids (server : ServerState) (live : LiveDoc) (id2 : String) :
    id2 ∈ (checkAndApplyNewSheets server live).2.map (fun s => s.id) →
    id2 ∈ live.map (fun s => s.id) ∨
      id2 ∈ server.pendingSheetCreations.map (fun r => r.id) := by
  unfold checkAndApplyNewSheets
  by_cases h : server.pendingSheetCreations = []
  · rw [if_pos h]
    exact Or.inl
  · rw [if_neg h]
    exact creationFold_ids server.pendingSheetCreations live id2

/-- Sheet summaries carry exactly the snapshot sheet ids. -/
theorem getSheets_ids (st : ServerState) :
    (getSheets st).map (fun i => i.id) = st.workbookData.map (fun s => s.id) := by
  unfold getSheets
  rw [List.map_map]
  rfl

/-- The per-sheet polling pass only ever deletes queues: a missing queue
stays missing. -/
theorem pollFold_none :
    ∀ (infos : List SheetSummary) (acc : ServerState × LiveDoc) (sid : String),
    mapGet acc.1.pendingUpdates sid = none →
    mapGet ((infos.foldl pollSheetStep acc).1.pendingUpdates) sid = none := by
  intro infos
  induction infos with
  | nil => intro acc sid h; exact h
  | cons i rest ih =>
    intro acc sid h
    rw [List.foldl_cons]
    apply ih
    by_cases hc : getPendingUpdates acc.1 i.id = []
    · simp only [pollSheetStep]
      rw [if_pos hc]
      exact h
    · simp only [pollSheetStep]
      rw [if_neg hc]
      exact mapGet_none_eraseKey _ _ _ h

/-- Sheets never listed by the cycle keep their queues untouched. -/
theorem pollFold_untouched :
    ∀ (infos : List SheetSummary) (acc : ServerState × LiveDoc) (sid : String),
    sid ∉ infos.map (fun i => i.id) →
    mapGet ((infos.foldl pollSheetStep acc).1.pendingUpdates) sid =
      mapGet acc.1.pendingUpdates sid := by
  intro infos
  induction infos with
  | nil => intro acc sid _; rfl
  | cons i rest ih =>
    intro acc sid hnot
    rw [List.map_cons, List.mem_cons] at hnot
    push_neg at hnot
    rw [List.foldl_cons, ih _ _ hnot.2]
    by_cases hc : getPendingUpdates acc.1 i.id = []
    · simp only [pollSheetStep]
      rw [if_pos hc]
    · simp only [pollSheetStep]
      rw [if_neg hc]
      exact mapGet_eraseKey_ne _ sid i.id hnot.1

/-- A listed sheet with a nonempty queue has its queue deleted by the
cycle even when nothing could be applied. -/
theorem pollFold_processed :
    ∀ (infos : List SheetSummary) (acc : ServerState × LiveDoc) (sid : String)
      (us : List PendingUpdate),
    (acc.1.pendingUpdates.map (fun e => e.1)).Nodup →
    mapGet acc.1.pendingUpdates sid = some us → us ≠ [] →
    sid ∈ infos.map (fun i => i.id) →
    mapGet ((infos.foldl pollSheetStep acc).1.pendingUpdates) sid = none := by
  intro infos
  induction infos with
  | nil =>
    intro acc sid us _ _ _ hmem
    exact absurd hmem (List.not_mem_nil sid)
  | cons i rest ih =>
    intro acc sid us hN hget hne hmem
    rw [List.foldl_cons]
    by_cases hid : i.id = sid
    · have hgetus : getPendingUpdates acc.1 i.id = us := by
        unfold getPendingUpdates
        rw [hid, hget]
        rfl
      have hcond : ¬(getPendingUpdates acc.1 i.id = []) := by
        rw [hgetus]
        exact hne
      apply pollFold_none
      simp only [pollSheetStep]
      rw [if_neg hcond]
      show mapGet (mapErase acc.1.pendingUpdates i.id) sid = none
      rw [hid]
      exact mapGet_eraseKey_self _ _ hN
    · have hmem2 : sid ∈ rest.map (fun i2 => i2.id) := by
        rw [List.map_cons, List.mem_cons] at hmem
        rcases hmem with h1 | h2
        · exact absurd h1.symm hid
        · exact h2
      by_cases hcond : getPendingUpdates acc.1 i.id = []
      · simp only [pollSheetStep]
        rw [if_pos hcond]
        exact ih acc sid us hN hget hne hmem2
      · simp only [pollSheetStep]
        rw [if_neg hcond]
        refine ih _ sid us ?_ ?_ hne hmem2
        · show ((mapErase acc.1.pendingUpdates i.id).map (fun e => e.1)).Nodup
          exact List.Nodup.sublist (List.Sublist.map _ (List.eraseP_sublist _)) hN
        · show mapGet (mapErase acc.1.pendingUpdates i.id) sid = some us
          rw [mapGet_eraseKey_ne _ sid i.id (fun h => hid h.symm)]
          exact hget

/-- The polling pass never changes the set of live sheet ids. -/
theorem pollFold_live_ids :
    ∀ (infos : List SheetSummary) (acc : ServerState × LiveDoc),
    ((infos.foldl pollSheetStep acc).2).map (fun s => s.id) =
      acc.2.map (fun s => s.id) := by
  intro infos
  induction infos with
  | nil => intro acc; rfl
  | cons i rest ih =>
    intro acc
    rw [List.foldl_cons, ih]
    by_cases hc : getPendingUpdates acc.1 i.id = []
    · simp only [pollSheetStep]
      rw [if_pos hc]
    · simp only [pollSheetStep]
      rw [if_neg hc]
      exact applyUpdatesClient_ids acc.2 i.id (getPendingUpdates acc.1 i.id)

/-- C7 counterexample: one cycle, one snapshot-listed sheet with a
pending update but absent from the live document — the cycle skips
applying (the live document stays empty) yet CLEARS the queue, so the
update is NOT available to a future cycle. -/
theorem claim_C7_counterexample :
    (pollCycle { workbookData := [{ id := "s1", name := "Sheet1", order := 0, data := none }], pendingUpdates := [(("s1"), [{ row := 0, col := 0, value := some (.str ("x")), formula := none, cell := ("A1") }])], pendingSheetCreations := [] } []).1.pendingUpdates = [] ∧
    (pollCycle { workbookData := [{ id := "s1", name := "Sheet1", order := 0, data := none }], pendingUpdates := [(("s1"), [{ row := 0, col := 0, value := some (.str ("x")), formula := none, cell := ("A1") }])], pendingSheetCreations := [] } []).2 = [] := by
  constructor
  · decide
  · decide

/-- C7 (amended): when a sheet with a nonempty queue is missing from the
live document, the cycle skips applying — the sheet is never created or
written there — but for sheets listed in the server snapshot the queue
is still cleared unconditionally, losing the updates; only a sheet id
absent from the snapshot list keeps its queue for a future cycle. -/
theorem claim_C7_theorem (server : ServerState) (live : LiveDoc) (sid : String)
    (us : List PendingUpdate)
    (hkeys : (server.pendingUpdates.map (fun e => e.1)).Nodup)
    (hq : mapGet server.pendingUpdates sid = some us) (hne : us ≠ [])
    (hlive : sid ∉ live.map (fun s => s.id))
    (hcr : ∀ r ∈ server.pendingSheetCreations, r.id ≠ sid) :
    (sid ∈ server.workbookData.map (fun s => s.id) →
      mapGet (pollCycle server live).1.pendingUpdates sid = none) ∧
    (sid ∉ server.workbookData.map (fun s => s.id) →
      mapGet (pollCycle server live).1.pendingUpdates sid = some us) ∧
    sid ∉ (pollCycle server live).2.map (fun s => s.id) := by
  have hsrv := checkApply_server server live
  have hpoll : pollCycle server live =
      (getSheets (checkAndApplyNewSheets server live).1).foldl pollSheetStep
        (checkAndApplyNewSheets server live) := rfl
  refine ⟨?_, ?_, ?_⟩
  · intro hmem
    rw [hpoll]
    refine pollFold_processed _ _ sid us ?_ ?_ hne ?_
    · rw [hsrv.2]
      exact hkeys
    · rw [hsrv.2]
      exact hq
    · rw [getSheets_ids, hsrv.1]
      exact hmem
  · intro hnmem
    rw [hpoll, pollFold_untouched _ _ sid ?_, hsrv.2]
    · exact hq
    · rw [getSheets_ids, hsrv.1]
      exact hnmem
  · rw [hpoll, pollFold_live_ids]
    intro hmem
    rcases checkApply_live_ids server live sid hmem with h1 | h2
    · exact hlive h1
    · obtain ⟨r, hr, hrid⟩ := List.mem_map.mp h2
      exact hcr r hr hrid

/-- C7 witness: the amended theorem at the concrete one-sheet state of
the counterexample scenario. -/
theorem claim_C7_witness :
    mapGet (pollCycle { workbookData := [{ id := "s1", name := "Sheet1", order := 0, data := none }], pendingUpdates := [(("s1"), [{ row := 0, col := 0, value := some (.str ("x")), formula := none, cell := ("A1") }])], pendingSheetCreations := [] } []).1.pendingUpdates ("s1") = none :=
  (claim_C7_theorem
    { workbookData := [{ id := "s1", name := "Sheet1", order := 0, data := none }], pendingUpdates := [(("s1"), [{ row := 0, col := 0, value := some (.str ("x")), formula := none, cell := ("A1") }])], pendingSheetCreations := [] }
    [] ("s1") [{ row := 0, col := 0, value := some (.str ("x")), formula := none, cell := ("A1") }]
    (by decide) (by decide) (by decide) (by decide) (by decide)).1 (by decide)

end FortuneAI
